import Mathlib

/-!
Verification of the simple-kalshi-bot decision layer.

The definitions below are a shallow embedding of the Python sources
(bot.py, momentum_15.py): money amounts and prices are rationals,
CSV rows become the Trade structure whose numeric cells are FieldVal
values (a cell can be absent from the row, present but blank, numeric,
or present but not parseable), fallible numeric parsing becomes
Except Unit, and the main polling loop becomes an explicit step
function on a BotState record. Python float truncation int(x) and
round(x, 4) are modelled by pyInt and round4 (decimal round half to
even at four places).
-/

attribute [local semireducible] Rat.add Rat.sub Rat.mul Rat.inv

/-- Decidable equality of Except results, so concrete runs of the
fallible ledger computations can be checked by decide. -/
instance exceptDecEq {ε α : Type} [DecidableEq ε] [DecidableEq α] : DecidableEq (Except ε α) := fun a b =>
  match a, b with
  | .error e, .error f =>
    if h : e = f then .isTrue (by rw [h]) else .isFalse (fun hh => h (by injection hh))
  | .ok x, .ok y =>
    if h : x = y then .isTrue (by rw [h]) else .isFalse (fun hh => h (by injection hh))
  | .error _, .ok _ => .isFalse (fun hh => by injection hh)
  | .ok _, .error _ => .isFalse (fun hh => by injection hh)

/-! ### Configuration constants (module-level constants of bot.py, at
their default values) -/

def STAKE_USD : ℚ := 5
def MOMENTUM_WINDOW_SECONDS : ℚ := 60
def MOMENTUM_15_WINDOW_SECONDS : ℚ := 15 * 60
def DEAL_MAX_PRICE : ℚ := 45/100
def ARBITRAGE_MAX_BET_USD : ℚ := 10
def INITIAL_BANKROLL_USD : ℚ := 500
def CONSENSUS_RISK_PCT : ℚ := 1/100
def CONSENSUS_MAX_RISK_PCT : ℚ := 2/100
def CONSENSUS_MAX_PRICE : ℚ := 55/100
def CONSENSUS_FEE_PCT : ℚ := 0
def CONSENSUS_ROLLING_WINDOW : ℕ := 30
def CONSENSUS_DAILY_LOSS_CAP_R : ℚ := 3
def CONSENSUS_WEEKLY_LOSS_CAP_R : ℚ := 8
def BTC_HISTORY_LEN : ℕ := 200

/-! ### Numeric helpers -/

/-- Python int(x) for a rational: truncation toward zero. -/
def pyInt (q : ℚ) : ℤ := if q < 0 then -⌊-q⌋ else ⌊q⌋

/-- Round a rational to the nearest integer, halves to even. -/
def roundHalfEven (q : ℚ) : ℤ :=
  if q - ⌊q⌋ < 1/2 then ⌊q⌋
  else if 1/2 < q - ⌊q⌋ then ⌊q⌋ + 1
  else if 2 ∣ ⌊q⌋ then ⌊q⌋ else ⌊q⌋ + 1

/-- Python round(x, 4), as decimal round half to even at four places. -/
def round4 (q : ℚ) : ℚ := (roundHalfEven (q * 10000) : ℚ) / 10000

/-! ### Sides, strategies, outcomes, ledger rows -/

inductive Side
  | yes
  | no
deriving DecidableEq

def Side.other : Side → Side
  | .yes => .no
  | .no => .yes

inductive Strategy
  | previous
  | momentum
  | consensus
  | momentum15
  | previous2
  | consensus2
  | arbitrage
  | arbitrageHedge
deriving DecidableEq

inductive Outcome
  | unresolved
  | win
  | loss
deriving DecidableEq

/-- A numeric CSV cell as the Python code sees it: the key can be absent
from the row dict, present with an empty string, present with a numeric
string, or present with a non-numeric non-empty string. -/
inductive FieldVal
  | missing
  | empty
  | num (q : ℚ)
  | malformed
deriving DecidableEq

/-- Python float(row.get(key, d)): an absent key yields the default d,
a numeric string parses, an empty or non-numeric string raises. -/
def pyFloatD (f : FieldVal) (d : ℚ) : Except Unit ℚ :=
  match f with
  | .missing => .ok d
  | .empty => .error ()
  | .num q => .ok q
  | .malformed => .error ()

/-- The timestamp attributes the code reads from a datetime value:
an absolute instant in seconds, the calendar day, and the ISO calendar
year and week. -/
structure Timestamp where
  sec : ℚ
  day : ℤ
  wyear : ℤ
  wweek : ℤ
deriving DecidableEq

/-- Information content of the previous_result CSV column. -/
inductive PrevCtx
  | emptyCtx
  | sideCtx (s : Side)
  | btcPct (q : ℚ)
  | btc15Pct (q : ℚ)
  | sigPair (p m : Side)
  | firstLeg
  | hedgeCtx (s : Side) (edge : ℚ)
deriving DecidableEq

/-- One ledger row (a trade dict of bot.py). time is None when the
stored string does not parse (parse_trade_time). -/
structure Trade where
  time : Option Timestamp
  strategy : Strategy
  previousTicker : String
  previousResult : PrevCtx
  buyTicker : String
  buySide : Side
  stake : FieldVal
  price : FieldVal
  contracts : FieldVal
  fee : FieldVal
  gross : FieldVal
  outcome : Outcome
  payout : FieldVal
  profit : FieldVal
deriving DecidableEq

/-! ### Statistics over the ledger (calc_stats, settled_consensus,
consensus_bankroll, consensus_period_pnl, rolling_consensus_metrics) -/

structure Stats where
  totalStaked : ℚ
  totalProfit : ℚ
  wins : ℕ
  losses : ℕ
  pending : ℕ
deriving DecidableEq

/-- Loop body accumulation of calc_stats. A malformed stake or profit
cell raises (float on a non-numeric string); a missing or blank profit
cell counts the trade as pending. -/
def calcStatsGo (strat : Option Strategy) : List Trade → Stats → Except Unit Stats
  | [], acc => .ok acc
  | t :: ts, acc =>
    if (match strat with | some s => decide (t.strategy ≠ s) | none => false) then
      calcStatsGo strat ts acc
    else
      match pyFloatD t.stake 0 with
      | .error e => .error e
      | .ok st =>
        match t.profit with
        | .missing => calcStatsGo strat ts { acc with totalStaked := acc.totalStaked + st, pending := acc.pending + 1 }
        | .empty => calcStatsGo strat ts { acc with totalStaked := acc.totalStaked + st, pending := acc.pending + 1 }
        | .malformed => .error ()
        | .num p =>
          calcStatsGo strat ts { acc with
            totalStaked := acc.totalStaked + st,
            totalProfit := acc.totalProfit + p,
            wins := if 0 < p then acc.wins + 1 else acc.wins,
            losses := if 0 < p then acc.losses else acc.losses + 1 }

/-- calc_stats of bot.py. -/
def calcStats (trades : List Trade) (strat : Option Strategy) : Except Unit Stats :=
  calcStatsGo strat trades ⟨0, 0, 0, 0, 0⟩

/-- Is the strategy one of the risk-managed consensus strategies. -/
def isConsensusStrat (s : Strategy) : Bool :=
  match s with
  | .consensus => true
  | .consensus2 => true
  | _ => false

/-- settled_consensus of bot.py: settled risk-managed trades in
insertion order. -/
def settledConsensus (trades : List Trade) : List Trade :=
  trades.filter (fun t => isConsensusStrat t.strategy && decide (t.outcome ≠ .unresolved))

/-- The realized sum inside consensus_bankroll: sum of
float(t.get(profit_usd-key, 0)) over the given trades, first parse
failure raising. -/
def consensusRealized : List Trade → Except Unit ℚ
  | [] => .ok 0
  | t :: ts =>
    match pyFloatD t.profit 0 with
    | .error e => .error e
    | .ok p =>
      match consensusRealized ts with
      | .error e => .error e
      | .ok r => .ok (p + r)

/-- consensus_bankroll of bot.py. -/
def consensusBankroll (trades : List Trade) : Except Unit ℚ :=
  match consensusRealized (settledConsensus trades) with
  | .error e => .error e
  | .ok r => .ok (INITIAL_BANKROLL_USD + r)

/-- Loop body of consensus_period_pnl: trades whose timestamp does not
parse are skipped; otherwise the profit cell is parsed and added to the
daily / weekly buckets when the date / ISO week matches. -/
def periodAccum (now : Timestamp) : List Trade → Except Unit (ℚ × ℚ)
  | [] => .ok (0, 0)
  | t :: ts =>
    match t.time with
    | none => periodAccum now ts
    | some tm =>
      match pyFloatD t.profit 0 with
      | .error e => .error e
      | .ok p =>
        match periodAccum now ts with
        | .error e => .error e
        | .ok dw =>
          .ok ((if tm.day = now.day then p else 0) + dw.1,
               (if tm.wyear = now.wyear ∧ tm.wweek = now.wweek then p else 0) + dw.2)

/-- consensus_period_pnl of bot.py. -/
def consensusPeriodPnl (trades : List Trade) (now : Timestamp) : Except Unit (ℚ × ℚ) :=
  periodAccum now (settledConsensus trades)

/-- Python list slicing xs[-n:]. -/
def takeLast {α : Type} (n : ℕ) (l : List α) : List α := l.drop (l.length - n)

/-- The profits list comprehension of rolling_consensus_metrics. -/
def profitList : List Trade → Except Unit (List ℚ)
  | [] => .ok []
  | t :: ts =>
    match pyFloatD t.profit 0 with
    | .error e => .error e
    | .ok p =>
      match profitList ts with
      | .error e => .error e
      | .ok r => .ok (p :: r)

structure RollingMetrics where
  sampleSize : ℕ
  winRate : ℚ
  breakEvenWinRate : ℚ
deriving DecidableEq

/-- rolling_consensus_metrics of bot.py. -/
def rollingConsensusMetrics (trades : List Trade) : Except Unit RollingMetrics :=
  let settled := settledConsensus trades
  if settled = [] then .ok ⟨0, 0, 1⟩
  else
    let window := takeLast CONSENSUS_ROLLING_WINDOW settled
    match profitList window with
    | .error e => .error e
    | .ok profits =>
      let wins := profits.filter (fun p => 0 < p)
      let losses := profits.filter (fun p => p ≤ 0)
      let sampleSize := window.length
      let winRate := if sampleSize ≠ 0 then (wins.length : ℚ) / sampleSize else 0
      let breakEven :=
        if wins ≠ [] ∧ losses ≠ [] then
          let avgWin := wins.sum / wins.length
          let avgLoss := |losses.sum / losses.length|
          if avgWin + avgLoss ≠ 0 then avgLoss / (avgWin + avgLoss) else 1
        else if wins ≠ [] then 0
        else 1
      .ok ⟨sampleSize, winRate, breakEven⟩

/-! ### Spec-side break-even formula (for comparison with the code) -/

def listMean (l : List ℚ) : ℚ := l.sum / l.length

def listAbsMean (l : List ℚ) : ℚ := (l.map (fun x => |x|)).sum / l.length

/-- The break-even win rate as the specification words it: with wins
the profits above zero and losses the rest, both non-empty gives
mean of absolute losses over the sum of the two means, only wins gives
zero, only losses or an empty window gives one. -/
def specBreakEven (profits : List ℚ) : ℚ :=
  let wins := profits.filter (fun p => 0 < p)
  let losses := profits.filter (fun p => p ≤ 0)
  if wins ≠ [] ∧ losses ≠ [] then
    listAbsMean losses / (listMean wins + listAbsMean losses)
  else if wins ≠ [] then 0
  else 1

/-! ### Momentum signal (strategy 2 / 2B of bot.py, momentum_15.py) -/

/-- The sample the code compares against: old_prices is the list of
samples at or before the cutoff, and the code reads old_prices[-1],
its last element. -/
def momentumOld (prices : List (ℚ × ℚ)) (cutoff : ℚ) : Option (ℚ × ℚ) :=
  (prices.filter (fun s => s.1 ≤ cutoff)).getLast?

/-- Modelled from the spec: the momentum comparison point as the spec
words it, namely the oldest sample with timestamp at or before the
cutoff (the first qualifying sample of the time-ordered buffer). -/
def momentumOldSpec (prices : List (ℚ × ℚ)) (cutoff : ℚ) : Option (ℚ × ℚ) :=
  (prices.filter (fun s => s.1 ≤ cutoff)).head?

/-- Side derivation: yes (up) on a strict rise, otherwise no (down). -/
def momentumSide (oldPrice curPrice : ℚ) : Side :=
  if curPrice > oldPrice then .yes else .no

/-! ### Risk manager gate (the CONSENSUS branch of bot.py, lines
506-587, over the values the branch computes from the ledger) -/

structure RiskConfig where
  maxPrice : ℚ
  riskPct : ℚ
  maxRiskPct : ℚ
  dailyR : ℚ
  weeklyR : ℚ
  window : ℕ
deriving DecidableEq

def defaultRiskConfig : RiskConfig :=
  { maxPrice := CONSENSUS_MAX_PRICE, riskPct := CONSENSUS_RISK_PCT,
    maxRiskPct := CONSENSUS_MAX_RISK_PCT, dailyR := CONSENSUS_DAILY_LOSS_CAP_R,
    weeklyR := CONSENSUS_WEEKLY_LOSS_CAP_R, window := CONSENSUS_ROLLING_WINDOW }

inductive RiskReject
  | invalidPrice
  | priceAboveMax
  | bankrollDepleted
  | dailyCapHit
  | weeklyCapHit
  | rollingBelowBreakEven
  | stakeTooSmall
  | exceedsMaxRisk
deriving DecidableEq

inductive RiskResult
  | approve (stake : ℚ) (contracts : ℤ)
  | reject (r : RiskReject)
deriving DecidableEq

/-- The CONSENSUS risk checks and sizing of bot.py in source order,
taking as inputs the ask price of the agreed side and the values the
branch computes from the ledger (bankroll, period P&L, rolling
metrics). -/
def consensusGate (cfg : RiskConfig) (price bankroll dayPnl weekPnl : ℚ)
    (sampleSize : ℕ) (winRate breakEven : ℚ) : RiskResult :=
  if price ≤ 0 then .reject .invalidPrice
  else if price > cfg.maxPrice then .reject .priceAboveMax
  else if bankroll ≤ 0 then .reject .bankrollDepleted
  else
    let r := max (bankroll * cfg.riskPct) (1/100)
    if dayPnl ≤ -(cfg.dailyR * r) then .reject .dailyCapHit
    else if weekPnl ≤ -(cfg.weeklyR * r) then .reject .weeklyCapHit
    else if cfg.window ≤ sampleSize ∧ winRate < breakEven then .reject .rollingBelowBreakEven
    else
      let targetStake := bankroll * cfg.riskPct
      let maxStake := bankroll * cfg.maxRiskPct
      let stake := min (min (max targetStake (1/100)) maxStake) bankroll
      let contracts := pyInt (stake / price)
      if contracts < 1 then .reject .stakeTooSmall
      else
        let maxContracts := pyInt (maxStake / price)
        let c := min contracts maxContracts
        if c < 1 then .reject .exceedsMaxRisk
        else .approve (c * price) c

/-- The rejection conditions of the gate as an ordered list of
independently evaluated checks, in the order the specification lists
them. -/
def gateChecks (cfg : RiskConfig) (price bankroll dayPnl weekPnl : ℚ)
    (sampleSize : ℕ) (winRate breakEven : ℚ) : List (Bool × RiskReject) :=
  let r := max (bankroll * cfg.riskPct) (1/100)
  let targetStake := bankroll * cfg.riskPct
  let maxStake := bankroll * cfg.maxRiskPct
  let stake := min (min (max targetStake (1/100)) maxStake) bankroll
  [ (decide (price ≤ 0), .invalidPrice),
    (decide (price > cfg.maxPrice), .priceAboveMax),
    (decide (bankroll ≤ 0), .bankrollDepleted),
    (decide (dayPnl ≤ -(cfg.dailyR * r)), .dailyCapHit),
    (decide (weekPnl ≤ -(cfg.weeklyR * r)), .weeklyCapHit),
    (decide (cfg.window ≤ sampleSize ∧ winRate < breakEven), .rollingBelowBreakEven),
    (decide (pyInt (stake / price) < 1), .stakeTooSmall),
    (decide (min (pyInt (stake / price)) (pyInt (maxStake / price)) < 1), .exceedsMaxRisk) ]

/-- First failing check of an ordered check list. -/
def firstFailing : List (Bool × RiskReject) → Option RiskReject
  | [] => none
  | (b, r) :: rest => if b then some r else firstFailing rest

/-- The approval the gate produces when no check fails. -/
def gateApprove (cfg : RiskConfig) (price bankroll : ℚ) : RiskResult :=
  let maxStake := bankroll * cfg.maxRiskPct
  let stake := min (min (max (bankroll * cfg.riskPct) (1/100)) maxStake) bankroll
  let c := min (pyInt (stake / price)) (pyInt (maxStake / price))
  .approve (c * price) c

/-! ### Settlement reconciler (bot.py lines 322-359, momentum_15.py
lines 352-385) -/

/-- Is the strategy charged the consensus fee at settlement. -/
def riskManaged (s : Strategy) : Bool :=
  match s with
  | .consensus => true
  | .consensus2 => true
  | _ => false

/-- One iteration of the settlement scan of bot.py for one trade.
A trade with an outcome already set, or without a bought ticker, is
skipped; a market lookup that fails or reports no settlement leaves the
trade untouched; a parse failure of the contracts or stake cell raises
inside the per-trade try block and also leaves the trade untouched. -/
def reconcileTrade (feePct : ℚ) (settle : String → Option Side) (t : Trade) : Trade :=
  if t.outcome ≠ .unresolved then t
  else if t.buyTicker = "" then t
  else
    match settle t.buyTicker with
    | none => t
    | some result =>
      match pyFloatD t.contracts 0, pyFloatD t.stake 0 with
      | .ok contracts, .ok stake =>
        let payout := if result = t.buySide then contracts else 0
        let gross := payout - stake
        let fee := if riskManaged t.strategy then stake * feePct else 0
        let profit := gross - fee
        { t with outcome := if result = t.buySide then .win else .loss,
                 payout := .num (round4 payout),
                 gross := .num (round4 gross),
                 fee := .num (round4 fee),
                 profit := .num (round4 profit) }
      | _, _ => t

/-- The settlement scan body of momentum_15.py: same structure, no fee
and no gross cell (its trades are never risk-managed). -/
def reconcileTradeM15 (settle : String → Option Side) (t : Trade) : Trade :=
  if t.outcome ≠ .unresolved then t
  else if t.buyTicker = "" then t
  else
    match settle t.buyTicker with
    | none => t
    | some result =>
      match pyFloatD t.contracts 0, pyFloatD t.stake 0 with
      | .ok contracts, .ok stake =>
        let payout := if result = t.buySide then contracts else 0
        let profit := payout - stake
        { t with outcome := if result = t.buySide then .win else .loss,
                 payout := .num (round4 payout),
                 profit := .num (round4 profit) }
      | _, _ => t

/-! ### The polling loop of bot.py as a step function -/

/-- Per-market signal cache entry (signals[ticker] of bot.py). -/
structure Signals where
  previousSig : Option Side
  momentumSig : Option Side
  momentum15Sig : Option Side
deriving DecidableEq

/-- arb_positions[ticker] of bot.py. -/
structure ArbPos where
  side : Side
  price : ℚ
  contracts : ℚ
  hedged : Bool
deriving DecidableEq

/-- The open market snapshot the cycle works on; asks are in cents as
the API reports them. -/
structure MarketIn where
  ticker : String
  yesAskCents : ℚ
  noAskCents : ℚ
deriving DecidableEq

/-- External inputs of one loop iteration: the clock, the BTC spot
fetch (none on failure), the open-market query (none when absent or
failing), and the settlement lookup for any ticker (none when the
lookup fails or the market is not settled). -/
structure CycleIn where
  now : Timestamp
  btcPrice : Option ℚ
  market : Option MarketIn
  settle : String → Option Side

/-- The in-memory state of the loop. -/
structure BotState where
  currentTicker : Option String
  pendingPrevious : Option String
  trades : List Trade
  tradedKeys : List (Strategy × String)
  btcPrices : List (ℚ × ℚ)
  signals : List (String × Signals)
  arbPositions : List (String × ArbPos)

/-- Python set.add on the decision index. -/
def addKey (l : List (Strategy × String)) (k : Strategy × String) : List (Strategy × String) :=
  if k ∈ l then l else k :: l

/-- Dict lookup on the signal cache. -/
def sigLookup : List (String × Signals) → String → Option Signals
  | [], _ => none
  | (k, v) :: rest, key => if k = key then some v else sigLookup rest key

/-- signals.setdefault-style init: signals[ticker] = fresh when the
key is absent. -/
def ensureSig (l : List (String × Signals)) (k : String) : List (String × Signals) :=
  match sigLookup l k with
  | some _ => l
  | none => (k, ⟨none, none, none⟩) :: l

/-- In-place update of one signal cache entry. -/
def mapSig (l : List (String × Signals)) (k : String) (f : Signals → Signals) : List (String × Signals) :=
  l.map (fun p => if p.1 = k then (p.1, f p.2) else p)

/-- Dict lookup on arb_positions. -/
def posLookup : List (String × ArbPos) → String → Option ArbPos
  | [], _ => none
  | (k, v) :: rest, key => if k = key then some v else posLookup rest key

/-- Dict assignment arb_positions[ticker] = pos. -/
def posSet (l : List (String × ArbPos)) (k : String) (v : ArbPos) : List (String × ArbPos) :=
  match posLookup l k with
  | some _ => l.map (fun p => if p.1 = k then (k, v) else p)
  | none => (k, v) :: l

/-- Ask price of a side given both asks. -/
def askFor (s : Side) (yesAsk noAsk : ℚ) : ℚ :=
  match s with
  | .yes => yesAsk
  | .no => noAsk

/-- Bounded append on the BTC price deque. -/
def appendBounded (l : List (ℚ × ℚ)) (x : ℚ × ℚ) : List (ℚ × ℚ) :=
  let l2 := l ++ [x]
  if BTC_HISTORY_LEN < l2.length then l2.drop (l2.length - BTC_HISTORY_LEN) else l2

/-- Append a trade and mark its (strategy, ticker) pair decided. -/
def appendTrade (s : BotState) (t : Trade) : BotState :=
  { s with trades := s.trades ++ [t],
           tradedKeys := addKey s.tradedKeys (t.strategy, t.buyTicker) }

/-- The trade dict of the fixed-stake strategies (PREVIOUS, MOMENTUM,
MOMENTUM_15, PREVIOUS_2, ARBITRAGE): no fee or gross cell, blank payout
and profit cells. -/
def mkFixedTrade (now : Timestamp) (strat : Strategy) (prevTicker : String) (ctx : PrevCtx)
    (tick : String) (side : Side) (price contracts : ℚ) : Trade :=
  { time := some now, strategy := strat, previousTicker := prevTicker, previousResult := ctx,
    buyTicker := tick, buySide := side,
    stake := .num STAKE_USD, price := .num (round4 price), contracts := .num (round4 contracts),
    fee := .missing, gross := .missing,
    outcome := .unresolved, payout := .empty, profit := .empty }

/-- The trade dict of CONSENSUS and CONSENSUS_2: integer contract
count, blank fee and gross cells. -/
def mkConsensusTrade (now : Timestamp) (strat : Strategy) (p m : Side)
    (tick : String) (side : Side) (stake price : ℚ) (c : ℤ) : Trade :=
  { time := some now, strategy := strat, previousTicker := "", previousResult := .sigPair p m,
    buyTicker := tick, buySide := side,
    stake := .num (round4 stake), price := .num (round4 price), contracts := .num (c : ℚ),
    fee := .empty, gross := .empty,
    outcome := .unresolved, payout := .empty, profit := .empty }

/-- Market change detection (bot.py lines 316-320). -/
def stageRollover (s : BotState) (tick : String) : BotState :=
  match s.currentTicker with
  | none => { s with currentTicker := some tick }
  | some cur => if tick ≠ cur then { s with pendingPrevious := some cur, currentTicker := some tick } else s

/-- Strategy 1, PREVIOUS (bot.py lines 382-414). -/
def stagePrevious (s : BotState) (i : CycleIn) (tick : String) (yesAsk noAsk : ℚ) : BotState :=
  match s.pendingPrevious with
  | none => s
  | some pp =>
    if (Strategy.previous, tick) ∈ s.tradedKeys then s
    else
      match i.settle pp with
      | none => s
      | some settled =>
        let s := { s with signals := mapSig s.signals tick (fun g => { g with previousSig := some settled }) }
        let price := askFor settled yesAsk noAsk
        let contracts := if 0 < price then STAKE_USD / price else 0
        appendTrade s (mkFixedTrade i.now .previous pp (.sideCtx settled) tick settled price contracts)

/-- Strategies 2 and 2B, MOMENTUM and MOMENTUM_15 (bot.py lines
416-502); the two blocks differ only in window, strategy name and the
signal slot written. -/
def stageMomentumGen (s : BotState) (i : CycleIn) (tick : String) (yesAsk noAsk window : ℚ)
    (strat : Strategy) (isM15 : Bool) : BotState :=
  match s.pendingPrevious with
  | none => s
  | some pp =>
    if (strat, tick) ∈ s.tradedKeys then s
    else if s.btcPrices.length < 2 then s
    else
      match momentumOld s.btcPrices (i.now.sec - window), s.btcPrices.getLast? with
      | some old, some cur =>
        let side := momentumSide old.2 cur.2
        let s := { s with signals := mapSig s.signals tick (fun g =>
            if isM15 then { g with momentum15Sig := some side } else { g with momentumSig := some side }) }
        let price := askFor side yesAsk noAsk
        let contracts := if 0 < price then STAKE_USD / price else 0
        let pct := (cur.2 - old.2) / old.2 * 100
        appendTrade s (mkFixedTrade i.now strat pp (if isM15 then .btc15Pct pct else .btcPct pct) tick side price contracts)
      | _, _ => s

/-- The sizing stake of the consensus branches:
min(max(bankroll x riskPct, 0.01), maxStake, bankroll). -/
def consensusStakeQ (bankroll : ℚ) : ℚ :=
  min (min (max (bankroll * CONSENSUS_RISK_PCT) (1/100)) (bankroll * CONSENSUS_MAX_RISK_PCT)) bankroll

/-- The final CONSENSUS contract count: int(stake / price) capped by
int(maxStake / price). -/
def consensusContracts (bankroll price : ℚ) : ℤ :=
  min (pyInt (consensusStakeQ bankroll / price)) (pyInt (bankroll * CONSENSUS_MAX_RISK_PCT / price))

/-- The CONSENSUS_2 contract count, with its guarded cap (bot.py lines
687-689): the cap applies only when positive. -/
def consensus2Contracts (bankroll price : ℚ) : ℤ :=
  let contracts := pyInt (consensusStakeQ bankroll / price)
  let maxContracts := if 0 < bankroll * CONSENSUS_MAX_RISK_PCT then pyInt (bankroll * CONSENSUS_MAX_RISK_PCT / price) else 0
  if 0 < maxContracts then min contracts maxContracts else contracts

/-- Strategy 3, CONSENSUS (bot.py lines 504-617). The Bool is false
when the branch leaves the iteration early (the continue statements on
rejection, or an exception raised by a ledger parse). -/
def stageConsensus (s : BotState) (i : CycleIn) (tick : String) (yesAsk noAsk : ℚ) : BotState × Bool :=
  if (Strategy.consensus, tick) ∈ s.tradedKeys then (s, true)
  else
    match sigLookup s.signals tick with
    | none => (s, true)
    | some g =>
      match g.previousSig, g.momentumSig with
      | some p, some m =>
        if p = m then
          if askFor p yesAsk noAsk ≤ 0 then ({ s with tradedKeys := addKey s.tradedKeys (.consensus, tick) }, false)
          else if askFor p yesAsk noAsk > CONSENSUS_MAX_PRICE then ({ s with tradedKeys := addKey s.tradedKeys (.consensus, tick) }, false)
          else
            match consensusBankroll s.trades with
            | .error _ => (s, false)
            | .ok bankroll =>
              if bankroll ≤ 0 then ({ s with tradedKeys := addKey s.tradedKeys (.consensus, tick) }, false)
              else
                match consensusPeriodPnl s.trades i.now with
                | .error _ => (s, false)
                | .ok dw =>
                  if dw.1 ≤ -(CONSENSUS_DAILY_LOSS_CAP_R * max (bankroll * CONSENSUS_RISK_PCT) (1/100)) then
                    ({ s with tradedKeys := addKey s.tradedKeys (.consensus, tick) }, false)
                  else if dw.2 ≤ -(CONSENSUS_WEEKLY_LOSS_CAP_R * max (bankroll * CONSENSUS_RISK_PCT) (1/100)) then
                    ({ s with tradedKeys := addKey s.tradedKeys (.consensus, tick) }, false)
                  else
                    match rollingConsensusMetrics s.trades with
                    | .error _ => (s, false)
                    | .ok rolling =>
                      if CONSENSUS_ROLLING_WINDOW ≤ rolling.sampleSize ∧ rolling.winRate < rolling.breakEvenWinRate then
                        ({ s with tradedKeys := addKey s.tradedKeys (.consensus, tick) }, false)
                      else if pyInt (consensusStakeQ bankroll / askFor p yesAsk noAsk) < 1 then
                        ({ s with tradedKeys := addKey s.tradedKeys (.consensus, tick) }, false)
                      else if consensusContracts bankroll (askFor p yesAsk noAsk) < 1 then
                        ({ s with tradedKeys := addKey s.tradedKeys (.consensus, tick) }, false)
                      else
                        (appendTrade s (mkConsensusTrade i.now .consensus p m tick p
                          ((consensusContracts bankroll (askFor p yesAsk noAsk) : ℚ) * askFor p yesAsk noAsk)
                          (askFor p yesAsk noAsk)
                          (consensusContracts bankroll (askFor p yesAsk noAsk))), true)
        else ({ s with tradedKeys := addKey s.tradedKeys (.consensus, tick) }, true)
      | _, _ => (s, true)

/-- Strategy 4, PREVIOUS_2 (bot.py lines 619-643). -/
def stagePrevious2 (s : BotState) (i : CycleIn) (tick : String) (yesAsk noAsk : ℚ) : BotState :=
  if (Strategy.previous2, tick) ∈ s.tradedKeys then s
  else
    match sigLookup s.signals tick with
    | none => s
    | some g =>
      match g.previousSig with
      | none => s
      | some p =>
        if 0 < askFor p yesAsk noAsk ∧ askFor p yesAsk noAsk ≤ DEAL_MAX_PRICE then
          appendTrade s (mkFixedTrade i.now .previous2 (s.pendingPrevious.getD "") (.sideCtx p) tick p
            (askFor p yesAsk noAsk) (STAKE_USD / askFor p yesAsk noAsk))
        else s

/-- Strategy 5, CONSENSUS_2 (bot.py lines 645-716). The Bool is false
on the waiting continue statements (loss caps, rolling gate) and on a
ledger parse exception; note the waiting branches do not mark the pair
decided. -/
def stageConsensus2 (s : BotState) (i : CycleIn) (tick : String) (yesAsk noAsk : ℚ) : BotState × Bool :=
  if (Strategy.consensus2, tick) ∈ s.tradedKeys then (s, true)
  else
    match sigLookup s.signals tick with
    | none => (s, true)
    | some g =>
      match g.previousSig, g.momentumSig with
      | some p, some m =>
        if p = m then
          if 0 < askFor p yesAsk noAsk ∧ askFor p yesAsk noAsk ≤ DEAL_MAX_PRICE then
            match consensusBankroll s.trades with
            | .error _ => (s, false)
            | .ok bankroll =>
              if 0 < bankroll then
                match consensusPeriodPnl s.trades i.now with
                | .error _ => (s, false)
                | .ok dw =>
                  if dw.1 ≤ -(CONSENSUS_DAILY_LOSS_CAP_R * max (bankroll * CONSENSUS_RISK_PCT) (1/100)) then (s, false)
                  else if dw.2 ≤ -(CONSENSUS_WEEKLY_LOSS_CAP_R * max (bankroll * CONSENSUS_RISK_PCT) (1/100)) then (s, false)
                  else
                    match rollingConsensusMetrics s.trades with
                    | .error _ => (s, false)
                    | .ok rolling =>
                      if CONSENSUS_ROLLING_WINDOW ≤ rolling.sampleSize ∧ rolling.winRate < rolling.breakEvenWinRate then (s, false)
                      else if 1 ≤ consensus2Contracts bankroll (askFor p yesAsk noAsk) then
                        (appendTrade s (mkConsensusTrade i.now .consensus2 p m tick p
                          ((consensus2Contracts bankroll (askFor p yesAsk noAsk) : ℚ) * askFor p yesAsk noAsk)
                          (askFor p yesAsk noAsk)
                          (consensus2Contracts bankroll (askFor p yesAsk noAsk))), true)
                      else (s, true)
              else (s, true)
          else (s, true)
        else ({ s with tradedKeys := addKey s.tradedKeys (.consensus2, tick) }, true)
      | _, _ => (s, true)

/-- Strategy 6 first leg, ARBITRAGE (bot.py lines 718-747). -/
def stageArbitrage (s : BotState) (i : CycleIn) (tick : String) (yesAsk noAsk : ℚ) : BotState :=
  if (Strategy.arbitrage, tick) ∈ s.tradedKeys then s
  else if 0 < yesAsk ∧ 0 < noAsk then
    let firstSide := if yesAsk ≤ noAsk then Side.yes else Side.no
    let firstPrice := askFor firstSide yesAsk noAsk
    let contracts := if 0 < firstPrice then STAKE_USD / firstPrice else 0
    let s2 := appendTrade s (mkFixedTrade i.now .arbitrage "" .firstLeg tick firstSide firstPrice contracts)
    { s2 with arbPositions := posSet s2.arbPositions tick ⟨firstSide, firstPrice, contracts, false⟩ }
  else s

/-- The hedge order construction of the ARBITRAGE hedge leg (bot.py
lines 752-774): opposite side, positive edge required, contracts capped
by the first leg and by the max hedge budget. -/
def hedgeTrade (now : Timestamp) (pos : ArbPos) (tick : String) (yesAsk noAsk : ℚ) : Option Trade :=
  let oppositePrice := askFor pos.side.other yesAsk noAsk
  let edge := 1 - (pos.price + oppositePrice)
  if 0 < oppositePrice ∧ 0 < edge then
    let maxByBet := pyInt ((ARBITRAGE_MAX_BET_USD - 1/10000) / oppositePrice)
    let hc := min (pyInt pos.contracts) maxByBet
    if 1 ≤ hc then
      some { time := some now, strategy := .arbitrageHedge, previousTicker := "",
             previousResult := .hedgeCtx pos.side edge, buyTicker := tick, buySide := pos.side.other,
             stake := .num (round4 ((hc : ℚ) * oppositePrice)), price := .num (round4 oppositePrice),
             contracts := .num (hc : ℚ), fee := .missing, gross := .missing,
             outcome := .unresolved, payout := .empty, profit := .empty }
    else none
  else none

/-- Strategy 6 hedge leg (bot.py lines 749-783). -/
def stageHedge (s : BotState) (i : CycleIn) (tick : String) (yesAsk noAsk : ℚ) : BotState :=
  if (Strategy.arbitrageHedge, tick) ∈ s.tradedKeys then s
  else
    match posLookup s.arbPositions tick with
    | none => s
    | some pos =>
      if pos.hedged then s
      else
        match hedgeTrade i.now pos tick yesAsk noAsk with
        | none => s
        | some tr =>
          let s2 := appendTrade s tr
          { s2 with arbPositions := posSet s2.arbPositions tick { pos with hedged := true } }

/-- Clearing of pending_previous once PREVIOUS and MOMENTUM have both
traded (bot.py lines 785-787). -/
def stageClearPending (s : BotState) (tick : String) : BotState :=
  match s.pendingPrevious with
  | none => s
  | some _ =>
    if (Strategy.previous, tick) ∈ s.tradedKeys ∧ (Strategy.momentum, tick) ∈ s.tradedKeys then
      { s with pendingPrevious := none }
    else s

/-- Settlement scan over the whole ledger (bot.py lines 322-359). -/
def stageReconcile (s : BotState) (i : CycleIn) : BotState :=
  { s with trades := s.trades.map (reconcileTrade CONSENSUS_FEE_PCT i.settle) }

/-- The strategy blocks after CONSENSUS_2: ARBITRAGE, its hedge leg,
and the clearing of pending_previous. -/
def cycleTail2 (s : BotState) (i : CycleIn) (tick : String) (yesAsk noAsk : ℚ) : BotState :=
  let s := stageArbitrage s i tick yesAsk noAsk
  let s := stageHedge s i tick yesAsk noAsk
  stageClearPending s tick

/-- The strategy blocks after CONSENSUS: PREVIOUS_2, then CONSENSUS_2
whose continue statements skip the rest of the iteration. -/
def cycleTail1 (s : BotState) (i : CycleIn) (tick : String) (yesAsk noAsk : ℚ) : BotState :=
  let s := stagePrevious2 s i tick yesAsk noAsk
  match stageConsensus2 s i tick yesAsk noAsk with
  | (s, false) => s
  | (s, true) => cycleTail2 s i tick yesAsk noAsk

/-- The per-market portion of one loop iteration: signal cache init,
rollover detection, settlement scan, then the seven strategy blocks
with their early continue exits. -/
def cycleCore (s : BotState) (i : CycleIn) (tick : String) (yesAsk noAsk : ℚ) : BotState :=
  let s := { s with signals := ensureSig s.signals tick }
  let s := stageRollover s tick
  let s := stageReconcile s i
  let s := stagePrevious s i tick yesAsk noAsk
  let s := stageMomentumGen s i tick yesAsk noAsk MOMENTUM_WINDOW_SECONDS .momentum false
  let s := stageMomentumGen s i tick yesAsk noAsk MOMENTUM_15_WINDOW_SECONDS .momentum15 true
  match stageConsensus s i tick yesAsk noAsk with
  | (s, false) => s
  | (s, true) => cycleTail1 s i tick yesAsk noAsk

/-- The BTC sampling at the top of the loop: on success the sample is
appended to the bounded deque. -/
def btcStage (s : BotState) (i : CycleIn) : BotState :=
  match i.btcPrice with
  | none => s
  | some p => { s with btcPrices := appendBounded s.btcPrices (i.now.sec, p) }

/-- One iteration of the polling loop of bot.py (lines 284-789): BTC
sample, open-market fetch, then the per-market work. -/
def cycleStep (s : BotState) (i : CycleIn) : BotState :=
  match i.market with
  | none => btcStage s i
  | some mk => cycleCore (btcStage s i) i mk.ticker (mk.yesAskCents / 100) (mk.noAskCents / 100)

/-- The state main starts from on a fresh run (no CSV on disk). -/
def initialState : BotState :=
  { currentTicker := none, pendingPrevious := none, trades := [], tradedKeys := [],
    btcPrices := [], signals := [], arbPositions := [] }

/-- States the loop can reach from a fresh start. -/
inductive Reachable : BotState → Prop
  | init : Reachable initialState
  | next (s : BotState) (i : CycleIn) : Reachable s → Reachable (cycleStep s i)

/-- Iterate the cycle against a fixed input. -/
def iterStep : ℕ → BotState → CycleIn → BotState
  | 0, s, _ => s
  | n + 1, s, i => iterStep n (cycleStep s i) i

/-! ### Predicates used by the theorems -/

/-- The profit cell parses under float(t.get(key, 0)): it is absent or
numeric (a present blank or non-numeric string raises). -/
def profitBenign (t : Trade) : Prop := t.profit ≠ .empty ∧ t.profit ≠ .malformed

instance profitBenignDec (t : Trade) : Decidable (profitBenign t) := by
  unfold profitBenign
  infer_instance

/-- The value float(t.get(profit-key, 0)) yields on a benign cell. -/
def profitVal (t : Trade) : ℚ :=
  match t.profit with
  | .num q => q
  | _ => 0

/-- Every settled risk-managed trade of the ledger has a benign profit
cell, so the bankroll, period P&L and rolling computations succeed. -/
def ParsesOk (trades : List Trade) : Prop :=
  ∀ t ∈ settledConsensus trades, profitBenign t

instance parsesOkDec (l : List Trade) : Decidable (ParsesOk l) := by
  unfold ParsesOk
  infer_instance

/-- The decision-index key of a trade. -/
def tradeKey (t : Trade) : Strategy × String := (t.strategy, t.buyTicker)

/-- Number of trades recorded for one (strategy, ticker) pair. -/
def keyCount (trades : List Trade) (k : Strategy × String) : ℕ :=
  (trades.filter (fun t => decide (tradeKey t = k))).length

/-- Loop invariant: the decision index covers every recorded trade, and
no (strategy, ticker) pair has two trades. -/
def StateInv (s : BotState) : Prop :=
  (∀ t ∈ s.trades, tradeKey t ∈ s.tradedKeys) ∧ (∀ k, keyCount s.trades k ≤ 1)

/-- What one strategy block can do to the state: it never touches the
current or pending ticker; it either leaves the ledger alone (adding at
most its own key to the decision index), or appends exactly one
unresolved trade of its own strategy for the current ticker, guarded by
that key being undecided, and marks the key decided. -/
def StageEffect (strat : Strategy) (tick : String) (s s2 : BotState) : Prop :=
  s2.currentTicker = s.currentTicker ∧
  s2.pendingPrevious = s.pendingPrevious ∧
  ((s2.trades = s.trades ∧
      (s2.tradedKeys = s.tradedKeys ∨ s2.tradedKeys = addKey s.tradedKeys (strat, tick))) ∨
   (∃ tr : Trade, tr.strategy = strat ∧ tr.buyTicker = tick ∧ tr.outcome = .unresolved ∧
      (strat, tick) ∉ s.tradedKeys ∧
      s2.trades = s.trades ++ [tr] ∧ s2.tradedKeys = addKey s.tradedKeys (strat, tick)))

/-- Relation between the state before and after a cycle fragment:
decided pairs stay decided, the invariant is preserved, and the trade
count of every already-decided pair is unchanged. -/
def StepBound (s s2 : BotState) : Prop :=
  (∀ k, k ∈ s.tradedKeys → k ∈ s2.tradedKeys) ∧
  (StateInv s → StateInv s2) ∧
  (StateInv s → ∀ k ∈ s.tradedKeys, keyCount s2.trades k = keyCount s.trades k)

/-! ### Concrete inputs used by examples and witnesses -/

/-- The conditions of the CONSENSUS_2 starvation scenario that a cycle
preserves: the current market is T with no rollover pending, the cached
PREVIOUS and MOMENTUM signals for T agree on sd, the settled
risk-managed rows parse, and the CONSENSUS_2 pair for T is undecided
with an unchanged trade count. -/
def QInv (T : String) (sd : Side) (c0 : ℕ) (s : BotState) : Prop :=
  s.currentTicker = some T ∧
  s.pendingPrevious = none ∧
  (∃ g, sigLookup s.signals T = some g ∧ g.previousSig = some sd ∧ g.momentumSig = some sd) ∧
  ParsesOk s.trades ∧
  (Strategy.consensus2, T) ∉ s.tradedKeys ∧
  keyCount s.trades (Strategy.consensus2, T) = c0

/-- A settled consensus ledger row with the given strategy, outcome and
profit cell. -/
def exTrade (st : Strategy) (oc : Outcome) (p : FieldVal) : Trade :=
  { time := none, strategy := st, previousTicker := "", previousResult := .emptyCtx,
    buyTicker := "X", buySide := .yes, stake := .num 5, price := .num (1/2),
    contracts := .num 10, fee := .num 0, gross := .num 0, outcome := oc,
    payout := .num 10, profit := p }

/-- Rolling window with two wins of 10 and one loss of 5. -/
def exWinLoss : List Trade :=
  [exTrade .consensus .win (.num 10), exTrade .consensus .win (.num 10),
   exTrade .consensus2 .loss (.num (-5))]

/-- Rolling window with a single win of 5. -/
def exOnlyWin : List Trade := [exTrade .consensus .win (.num 5)]

/-- A pending trade row whose stake cell is present but not numeric. -/
def exBadStake : Trade :=
  { exTrade .previous .unresolved .empty with stake := .malformed }

/-- A settled consensus row whose profit cell is present but not
numeric. -/
def exBadProfit : Trade := exTrade .consensus .win .malformed

/-- A cycle input with an open market, both asks positive, and no
settlement reported for any ticker. -/
def exInput : CycleIn :=
  { now := ⟨0, 0, 0, 0⟩, btcPrice := some 50000,
    market := some ⟨"M", 40, 55⟩, settle := fun _ => none }

/-- A mid-run state for the CONSENSUS versus CONSENSUS_2 comparison:
the current market is M, no rollover pending, both cached signals for M
resolved to yes, nothing decided yet. -/
def exAgreeState : BotState :=
  { currentTicker := some "M", pendingPrevious := none, trades := [], tradedKeys := [],
    btcPrices := [], signals := [("M", ⟨some .yes, some .yes, none⟩)], arbPositions := [] }

/-- A cycle input for exAgreeState: the yes ask of 50 cents exceeds the
45 cent deal threshold while passing the 55 cent consensus cap. -/
def exAgreeInput : CycleIn :=
  { now := ⟨0, 0, 0, 0⟩, btcPrice := none,
    market := some ⟨"M", 50, 60⟩, settle := fun _ => none }

/-- A reconcilable pending trade: 10 contracts of yes at 40 cents for
a 5 dollar stake. -/
def exPendingTrade : Trade :=
  { time := none, strategy := .consensus, previousTicker := "", previousResult := .emptyCtx,
    buyTicker := "M", buySide := .yes, stake := .num 5, price := .num (4/10),
    contracts := .num (25/2), fee := .empty, gross := .empty, outcome := .unresolved,
    payout := .empty, profit := .empty }

/-- A pending trade row whose stake and profit cells are absent. -/
def exMissStake : Trade :=
  { exTrade .previous .unresolved .missing with stake := .missing }

/-- An unhedged first-leg position: yes at 40 cents, 12.5 contracts. -/
def exHedgePos : ArbPos := ⟨.yes, 2/5, 25/2, false⟩

/-- The hedge trade the code produces from exHedgePos with the no side
asked at 50 cents: 12 contracts at an edge of 10 cents. -/
def exHedgeOut : Trade :=
  { time := some ⟨0, 0, 0, 0⟩, strategy := .arbitrageHedge, previousTicker := "",
    previousResult := .hedgeCtx .yes (1/10), buyTicker := "M", buySide := .no,
    stake := .num 6, price := .num (1/2), contracts := .num 12,
    fee := .missing, gross := .missing,
    outcome := .unresolved, payout := .empty, profit := .empty }

/-! ## Theorems -/

/-! ### Helper lemmas on list membership and order -/

theorem getLastQ_mem {α : Type} : ∀ (l : List α) (a : α), l.getLast? = some a → a ∈ l := by
  intro l
  induction l with
  | nil => intro a h; simp [List.getLast?] at h
  | cons b rest ih =>
    intro a h
    cases rest with
    | nil => simp [List.getLast?] at h; simp [h]
    | cons c rest2 =>
      rw [List.getLast?_cons_cons] at h
      exact List.mem_cons_of_mem b (ih a h)

theorem pairwise_le_getLast {α : Type} (R : α → α → Prop) :
    ∀ (l : List α) (a : α), l.Pairwise R → l.getLast? = some a →
      ∀ x ∈ l, x = a ∨ R x a := by
  intro l
  induction l with
  | nil => intro a _ h; simp [List.getLast?] at h
  | cons b rest ih =>
    intro a hp h x hx
    cases rest with
    | nil =>
      simp [List.getLast?] at h
      rcases List.mem_singleton.mp hx with rfl
      exact Or.inl h
    | cons c rest2 =>
      rw [List.getLast?_cons_cons] at h
      rcases List.mem_cons.mp hx with rfl | hx2
      · have ha : a ∈ c :: rest2 := getLastQ_mem _ _ h
        exact Or.inr ((List.pairwise_cons.mp hp).1 a ha)
      · exact ih a (List.pairwise_cons.mp hp).2 h x hx2

/-- C4: with the current price sample equal to the selected pre-cutoff
sample the derived side is no (down); the side is yes (up) exactly when
the current price strictly exceeds the old one. -/
theorem momentum_tie_resolves_down :
    (∀ p : ℚ, momentumSide p p = Side.no) ∧
    (∀ o c : ℚ, momentumSide o c = Side.yes ↔ o < c) := by
  constructor
  · intro p; simp [momentumSide]
  · intro o c
    by_cases h : o < c
    · simp [momentumSide, h]
    · simp [momentumSide, h]

/-- C1: the CONSENSUS risk gate evaluates its rejection checks in the
fixed spec order with the first failing check producing the rejection,
and at bankroll 500, risk fraction 1 percent and daily cap multiple 3 a
daily P&L of -16 is rejected at the daily cap while -14 passes it and
reaches approval. -/
theorem consensus_gate_first_failing_check :
    (∀ (cfg : RiskConfig) (price bankroll dayPnl weekPnl : ℚ) (sampleSize : ℕ) (winRate breakEven : ℚ),
      consensusGate cfg price bankroll dayPnl weekPnl sampleSize winRate breakEven =
        match firstFailing (gateChecks cfg price bankroll dayPnl weekPnl sampleSize winRate breakEven) with
        | some rej => .reject rej
        | none => gateApprove cfg price bankroll) ∧
    consensusGate defaultRiskConfig (1/2) 500 (-16) 0 0 0 1 = .reject .dailyCapHit ∧
    consensusGate defaultRiskConfig (1/2) 500 (-14) 0 0 0 1 = .approve 5 10 := by
  refine ⟨?_, by decide, by decide⟩
  intro cfg price bankroll dayPnl weekPnl sampleSize winRate breakEven
  simp only [consensusGate, gateChecks, firstFailing, gateApprove, decide_eq_true_eq]
  split_ifs <;> rfl

/-- C3 (counterexample): on the time-ordered samples (0, 100),
(10, 200), (50, 300) with cutoff 30 the code selects (10, 200), the
most recent qualifying sample, while the oldest qualifying sample is
(0, 100) with a different price. -/
theorem momentum_old_not_oldest_cex :
    momentumOld [((0:ℚ), (100:ℚ)), (10, 200), (50, 300)] 30 = some (10, 200) ∧
    momentumOldSpec [((0:ℚ), (100:ℚ)), (10, 200), (50, 300)] 30 = some (0, 100) ∧
    momentumOld [((0:ℚ), (100:ℚ)), (10, 200), (50, 300)] 30 ≠
      momentumOldSpec [((0:ℚ), (100:ℚ)), (10, 200), (50, 300)] 30 :=
  ⟨by decide, by decide, by decide⟩

/-- C3 (amended): on a time-ordered buffer the old price compared
against the most recent sample is the price of the MOST RECENT (not the
oldest) sample whose timestamp is at or before the cutoff: the selected
sample qualifies and no qualifying sample is more recent. -/
theorem momentum_uses_latest_qualifying_sample (l : List (ℚ × ℚ)) (cutoff : ℚ) (s : ℚ × ℚ)
    (hsort : List.Pairwise (fun a b : ℚ × ℚ => a.1 ≤ b.1) l)
    (hsel : momentumOld l cutoff = some s) :
    s ∈ l ∧ s.1 ≤ cutoff ∧ ∀ x ∈ l, x.1 ≤ cutoff → x.1 ≤ s.1 := by
  unfold momentumOld at hsel
  have hmemf : s ∈ l.filter (fun p => decide (p.1 ≤ cutoff)) := getLastQ_mem _ _ hsel
  have hmem : s ∈ l ∧ s.1 ≤ cutoff := by
    have := List.mem_filter.mp hmemf
    simpa using this
  refine ⟨hmem.1, hmem.2, ?_⟩
  intro x hx hxc
  have hxf : x ∈ l.filter (fun p => decide (p.1 ≤ cutoff)) := by
    simp [List.mem_filter, hx, hxc]
  have hpf : (l.filter (fun p => decide (p.1 ≤ cutoff))).Pairwise (fun a b : ℚ × ℚ => a.1 ≤ b.1) :=
    List.Pairwise.filter _ hsort
  rcases pairwise_le_getLast _ _ s hpf hsel x hxf with rfl | hle
  · exact le_refl _
  · exact hle

theorem momentum_uses_latest_qualifying_sample_witness :
    List.Pairwise (fun a b : ℚ × ℚ => a.1 ≤ b.1) [((0:ℚ), (100:ℚ)), (10, 200), (50, 300)] ∧
    momentumOld [((0:ℚ), (100:ℚ)), (10, 200), (50, 300)] 30 = some (10, 200) ∧
    (((10:ℚ), (200:ℚ)) ∈ [((0:ℚ), (100:ℚ)), (10, 200), (50, 300)] ∧ (10:ℚ) ≤ 30 ∧
      ∀ x ∈ [((0:ℚ), (100:ℚ)), (10, 200), (50, 300)], x.1 ≤ 30 → x.1 ≤ 10) :=
  ⟨by decide, by decide,
   momentum_uses_latest_qualifying_sample _ 30 (10, 200) (by decide) (by decide)⟩

/-- C7: every hedge trade the code constructs carries exactly
min(floor of first-leg contracts, floor((budget - epsilon) / opposite
price)) contracts, hence never exceeds the first-leg contracts nor the
budget cap; it exists only when both leg prices sum to strictly less
than one and the resulting count is at least one. -/
theorem hedge_contracts_bounds (now : Timestamp) (pos : ArbPos) (tick : String)
    (yesAsk noAsk : ℚ) (tr : Trade)
    (hc0 : 0 ≤ pos.contracts)
    (h : hedgeTrade now pos tick yesAsk noAsk = some tr) :
    tr.strategy = .arbitrageHedge ∧
    tr.contracts = .num ((min (pyInt pos.contracts)
      (pyInt ((ARBITRAGE_MAX_BET_USD - 1/10000) / askFor pos.side.other yesAsk noAsk)) : ℤ) : ℚ) ∧
    min (pyInt pos.contracts)
      (pyInt ((ARBITRAGE_MAX_BET_USD - 1/10000) / askFor pos.side.other yesAsk noAsk)) ≤ pyInt pos.contracts ∧
    ((min (pyInt pos.contracts)
      (pyInt ((ARBITRAGE_MAX_BET_USD - 1/10000) / askFor pos.side.other yesAsk noAsk)) : ℤ) : ℚ) ≤ pos.contracts ∧
    min (pyInt pos.contracts)
      (pyInt ((ARBITRAGE_MAX_BET_USD - 1/10000) / askFor pos.side.other yesAsk noAsk)) ≤
      pyInt ((ARBITRAGE_MAX_BET_USD - 1/10000) / askFor pos.side.other yesAsk noAsk) ∧
    pos.price + askFor pos.side.other yesAsk noAsk < 1 ∧
    1 ≤ min (pyInt pos.contracts)
      (pyInt ((ARBITRAGE_MAX_BET_USD - 1/10000) / askFor pos.side.other yesAsk noAsk)) := by
  simp only [hedgeTrade] at h
  split_ifs at h with h1 h2
  · injection h with h3
    subst h3
    refine ⟨rfl, rfl, min_le_left _ _, ?_, min_le_right _ _, ?_, h2⟩
    · have h4 : pyInt pos.contracts = ⌊pos.contracts⌋ := by
        unfold pyInt
        rw [if_neg (not_lt.mpr hc0)]
      calc ((min (pyInt pos.contracts)
          (pyInt ((ARBITRAGE_MAX_BET_USD - 1/10000) / askFor pos.side.other yesAsk noAsk)) : ℤ) : ℚ)
          ≤ ((pyInt pos.contracts : ℤ) : ℚ) := by
            exact_mod_cast min_le_left _ _
        _ ≤ pos.contracts := by rw [h4]; exact Int.floor_le pos.contracts
    · have := h1.2
      linarith

theorem hedge_contracts_bounds_witness :
    (0 : ℚ) ≤ exHedgePos.contracts ∧
    hedgeTrade ⟨0, 0, 0, 0⟩ exHedgePos "M" (2/5) (1/2) = some exHedgeOut ∧
    exHedgePos.price + askFor exHedgePos.side.other (2/5) (1/2) < 1 :=
  ⟨by decide, by decide,
   (hedge_contracts_bounds ⟨0, 0, 0, 0⟩ exHedgePos "M" (2/5) (1/2) exHedgeOut
     (by decide) (by decide)).2.2.2.2.2.1⟩

/-- C2: a trade with empty outcome whose bought market reports a
settlement side, and whose stake and contracts cells parse, is settled
with outcome WIN exactly when the settlement side equals the bought
side, payout equal to the contract count on a win and zero otherwise,
gross profit payout minus stake, a fee of stake times the configured
fee fraction exactly for the risk-managed strategies, and net profit
gross minus fee (momentum_15.py applies the same rule with no fee);
a trade whose outcome is already set is never touched again. -/
theorem reconciler_settles_exactly_once (feePct : ℚ) (settle : String → Option Side) (t : Trade)
    (sd : Side) (q c : ℚ)
    (hout : t.outcome = .unresolved)
    (htick : t.buyTicker ≠ "")
    (hset : settle t.buyTicker = some sd)
    (hstake : pyFloatD t.stake 0 = .ok q)
    (hcon : pyFloatD t.contracts 0 = .ok c) :
    (((reconcileTrade feePct settle t).outcome = .win) ↔ sd = t.buySide) ∧
    (reconcileTrade feePct settle t).payout = .num (round4 (if sd = t.buySide then c else 0)) ∧
    (reconcileTrade feePct settle t).gross = .num (round4 ((if sd = t.buySide then c else 0) - q)) ∧
    (reconcileTrade feePct settle t).fee = .num (round4 (if riskManaged t.strategy then q * feePct else 0)) ∧
    (reconcileTrade feePct settle t).profit =
      .num (round4 (((if sd = t.buySide then c else 0) - q) - (if riskManaged t.strategy then q * feePct else 0))) ∧
    ((reconcileTradeM15 settle t).outcome = .win ↔ sd = t.buySide) ∧
    (reconcileTradeM15 settle t).profit = .num (round4 ((if sd = t.buySide then c else 0) - q)) ∧
    (∀ t2 : Trade, t2.outcome ≠ .unresolved →
      reconcileTrade feePct settle t2 = t2 ∧ reconcileTradeM15 settle t2 = t2) := by
  have hmain : reconcileTrade feePct settle t =
      { t with outcome := if sd = t.buySide then .win else .loss,
               payout := .num (round4 (if sd = t.buySide then c else 0)),
               gross := .num (round4 ((if sd = t.buySide then c else 0) - q)),
               fee := .num (round4 (if riskManaged t.strategy then q * feePct else 0)),
               profit := .num (round4 (((if sd = t.buySide then c else 0) - q) -
                 (if riskManaged t.strategy then q * feePct else 0))) } := by
    unfold reconcileTrade
    rw [hout]
    simp only [ne_eq, not_true_eq_false, if_false, htick, hset, hcon, hstake]
  have hm15 : reconcileTradeM15 settle t =
      { t with outcome := if sd = t.buySide then .win else .loss,
               payout := .num (round4 (if sd = t.buySide then c else 0)),
               profit := .num (round4 ((if sd = t.buySide then c else 0) - q)) } := by
    unfold reconcileTradeM15
    rw [hout]
    simp only [ne_eq, not_true_eq_false, if_false, htick, hset, hcon, hstake]
  refine ⟨?_, by rw [hmain], by rw [hmain], by rw [hmain], by rw [hmain], ?_, by rw [hm15], ?_⟩
  · rw [hmain]
    by_cases hw : sd = t.buySide <;> simp [hw]
  · rw [hm15]
    by_cases hw : sd = t.buySide <;> simp [hw]
  · intro t2 h2
    constructor
    · unfold reconcileTrade
      rw [if_pos h2]
    · unfold reconcileTradeM15
      rw [if_pos h2]

theorem reconciler_settles_exactly_once_witness :
    exPendingTrade.outcome = .unresolved ∧
    ((reconcileTrade 0 (fun _ => some Side.yes) exPendingTrade).outcome = .win ↔ Side.yes = exPendingTrade.buySide) ∧
    (reconcileTrade 0 (fun _ => some Side.yes) exPendingTrade).profit =
      .num (round4 (((if Side.yes = exPendingTrade.buySide then (25/2 : ℚ) else 0) - 5) -
        (if riskManaged exPendingTrade.strategy then (5 : ℚ) * 0 else 0))) :=
  ⟨by decide,
   (reconciler_settles_exactly_once 0 (fun _ => some Side.yes) exPendingTrade Side.yes 5 (25/2)
     (by decide) (by decide) rfl (by decide) (by decide)).1,
   (reconciler_settles_exactly_once 0 (fun _ => some Side.yes) exPendingTrade Side.yes 5 (25/2)
     (by decide) (by decide) rfl (by decide) (by decide)).2.2.2.2.1⟩

/-! ### Helper lemmas on the realized profit sum -/

theorem pyFloatD_benign (t : Trade) (h : profitBenign t) :
    pyFloatD t.profit 0 = .ok (profitVal t) := by
  rcases h with ⟨h1, h2⟩
  cases hp : t.profit <;> simp [pyFloatD, profitVal, hp] <;> simp_all

theorem realized_ok (l : List Trade) (h : ∀ t ∈ l, profitBenign t) :
    consensusRealized l = .ok ((l.map profitVal).sum) := by
  induction l with
  | nil => simp [consensusRealized]
  | cons t ts ih =>
    have hb := pyFloatD_benign t (h t (by simp))
    rw [consensusRealized, hb, ih (fun x hx => h x (by simp [hx]))]
    simp

theorem realized_err (l : List Trade) (h : ∃ t ∈ l, ¬ profitBenign t) :
    consensusRealized l = .error () := by
  induction l with
  | nil => simp at h
  | cons t ts ih =>
    rcases h with ⟨u, hu, hbad⟩
    rcases List.mem_cons.mp hu with rfl | hu2
    · have : pyFloatD u.profit 0 = .error () := by
        unfold profitBenign at hbad
        push_neg at hbad
        by_cases he : u.profit = .empty
        · simp [pyFloatD, he]
        · simp [pyFloatD, hbad he]
      rw [consensusRealized, this]
    · rw [consensusRealized, ih ⟨u, hu2, hbad⟩]
      cases hp : pyFloatD t.profit 0 <;> simp

theorem realized_perm (l l2 : List Trade) (h : l.Perm l2) :
    consensusRealized l = consensusRealized l2 := by
  by_cases hb : ∀ t ∈ l, profitBenign t
  · have hb2 : ∀ t ∈ l2, profitBenign t := fun t ht => hb t (h.mem_iff.mpr ht)
    rw [realized_ok l hb, realized_ok l2 hb2, ((h.map profitVal).sum_eq)]
  · push_neg at hb
    rcases hb with ⟨u, hu, hbad⟩
    rw [realized_err l ⟨u, hu, hbad⟩, realized_err l2 ⟨u, h.mem_iff.mp hu, hbad⟩]

/-- C8: when every settled risk-managed trade has a parseable profit
cell, the bankroll equals the configured initial bankroll plus the sum
of net profit over exactly the settled risk-managed trades, and the
bankroll is invariant under permuting the trade list. -/
theorem consensus_bankroll_realized_sum (ts ts2 : List Trade) :
    (ParsesOk ts →
      consensusBankroll ts = .ok (INITIAL_BANKROLL_USD + ((settledConsensus ts).map profitVal).sum)) ∧
    (ts.Perm ts2 → consensusBankroll ts = consensusBankroll ts2) := by
  constructor
  · intro h
    unfold consensusBankroll
    rw [realized_ok _ h]
  · intro h
    unfold consensusBankroll
    have hp : consensusRealized (settledConsensus ts) = consensusRealized (settledConsensus ts2) :=
      realized_perm _ _ (List.Perm.filter _ h)
    rw [hp]

theorem consensus_bankroll_realized_sum_witness :
    ParsesOk exWinLoss ∧
    consensusBankroll exWinLoss = .ok (INITIAL_BANKROLL_USD + ((settledConsensus exWinLoss).map profitVal).sum) ∧
    exWinLoss.Perm exWinLoss.reverse ∧
    consensusBankroll exWinLoss = consensusBankroll exWinLoss.reverse :=
  ⟨by decide,
   (consensus_bankroll_realized_sum exWinLoss exWinLoss.reverse).1 (by decide),
   by decide,
   (consensus_bankroll_realized_sum exWinLoss exWinLoss.reverse).2 (by decide)⟩

/-! ### Helper lemmas on means of signed lists -/

theorem sum_abs_of_nonpos (l : List ℚ) (h : ∀ x ∈ l, x ≤ 0) :
    (l.map (fun x => |x|)).sum = -l.sum := by
  induction l with
  | nil => simp
  | cons a t ih =>
    simp only [List.map_cons, List.sum_cons]
    rw [abs_of_nonpos (h a (by simp)), ih (fun x hx => h x (by simp [hx]))]
    ring

theorem sum_nonpos_of_mem (l : List ℚ) (h : ∀ x ∈ l, x ≤ 0) : l.sum ≤ 0 := by
  induction l with
  | nil => simp
  | cons a t ih =>
    simp only [List.sum_cons]
    exact add_nonpos (h a (by simp)) (ih (fun x hx => h x (by simp [hx])))

/-- C5: the rolling break-even win rate over the window of the most
recent N settled risk-managed trades equals the spec formula
mean(abs losses) / (mean wins + mean(abs losses)) when the window holds
both a profit above zero and one at or below zero, equals 0 with only
wins, and equals 1 with only losses or an empty window; concretely,
wins 10, 10 with loss -5 give 1/3, an empty ledger gives 1, and a
single win of 5 gives 0. -/
theorem rolling_break_even_formula :
    (∀ (ts : List Trade) (ps : List ℚ),
      profitList (takeLast CONSENSUS_ROLLING_WINDOW (settledConsensus ts)) = .ok ps →
      ∃ m, rollingConsensusMetrics ts = .ok m ∧ m.breakEvenWinRate = specBreakEven ps) ∧
    rollingConsensusMetrics exWinLoss = .ok ⟨3, 2/3, 1/3⟩ ∧
    rollingConsensusMetrics ([] : List Trade) = .ok ⟨0, 0, 1⟩ ∧
    rollingConsensusMetrics exOnlyWin = .ok ⟨1, 1, 0⟩ := by
  refine ⟨?_, by decide, by decide, by decide⟩
  intro ts ps h
  by_cases hs : settledConsensus ts = []
  · have hps : ps = [] := by
      rw [hs] at h
      simp [takeLast, profitList] at h
      exact h
    refine ⟨⟨0, 0, 1⟩, by simp [rollingConsensusMetrics, hs], ?_⟩
    simp [specBreakEven, hps]
  · simp only [rollingConsensusMetrics, if_neg hs]
    rw [h]
    refine ⟨_, rfl, ?_⟩
    simp only
    by_cases hw : ps.filter (fun p => decide (0 < p)) = []
    · rw [if_neg (by simp [hw]), if_neg (by simp [hw])]
      simp [specBreakEven, hw]
    · by_cases hl : ps.filter (fun p => decide (p ≤ 0)) = []
      · rw [if_neg (by simp [hl]), if_pos hw]
        simp [specBreakEven, hw, hl]
      · have hwpos : 0 < (ps.filter (fun p => decide (0 < p))).sum := by
          refine List.sum_pos _ (fun x hx => ?_) hw
          have := (List.mem_filter.mp hx).2
          simpa using this
        have hlnp : ∀ x ∈ ps.filter (fun p => decide (p ≤ 0)), x ≤ 0 := by
          intro x hx
          have := (List.mem_filter.mp hx).2
          simpa using this
        have hlsum : (ps.filter (fun p => decide (p ≤ 0))).sum ≤ 0 :=
          sum_nonpos_of_mem _ hlnp
        have hwlen : (0:ℚ) < ((ps.filter (fun p => decide (0 < p))).length : ℚ) := by
          have : 0 < (ps.filter (fun p => decide (0 < p))).length :=
            List.length_pos.mpr hw
          exact_mod_cast this
        have hllen : (0:ℚ) ≤ ((ps.filter (fun p => decide (p ≤ 0))).length : ℚ) := by
          positivity
        have havgw : 0 < (ps.filter (fun p => decide (0 < p))).sum /
            ((ps.filter (fun p => decide (0 < p))).length : ℚ) :=
          div_pos hwpos hwlen
        have habs : |(ps.filter (fun p => decide (p ≤ 0))).sum /
            ((ps.filter (fun p => decide (p ≤ 0))).length : ℚ)| =
            ((ps.filter (fun p => decide (p ≤ 0))).map (fun x => |x|)).sum /
            ((ps.filter (fun p => decide (p ≤ 0))).length : ℚ) := by
          rw [abs_div, abs_of_nonpos hlsum, abs_of_nonneg hllen, sum_abs_of_nonpos _ hlnp]
        have hguard : (ps.filter (fun p => decide (0 < p))).sum /
            ((ps.filter (fun p => decide (0 < p))).length : ℚ) +
            |(ps.filter (fun p => decide (p ≤ 0))).sum /
              ((ps.filter (fun p => decide (p ≤ 0))).length : ℚ)| ≠ 0 := by
          have : 0 < (ps.filter (fun p => decide (0 < p))).sum /
              ((ps.filter (fun p => decide (0 < p))).length : ℚ) +
              |(ps.filter (fun p => decide (p ≤ 0))).sum /
                ((ps.filter (fun p => decide (p ≤ 0))).length : ℚ)| :=
            add_pos_of_pos_of_nonneg havgw (abs_nonneg _)
          exact ne_of_gt this
        rw [if_pos ⟨hw, hl⟩, if_pos hguard]
        simp only [specBreakEven, listMean, listAbsMean]
        rw [if_pos ⟨hw, hl⟩, habs]

theorem rolling_break_even_formula_witness :
    profitList (takeLast CONSENSUS_ROLLING_WINDOW (settledConsensus exWinLoss)) = .ok [10, 10, -5] ∧
    ∃ m, rollingConsensusMetrics exWinLoss = .ok m ∧ m.breakEvenWinRate = specBreakEven [10, 10, -5] :=
  ⟨by decide, rolling_break_even_formula.1 exWinLoss [10, 10, -5] (by decide)⟩

/-- Accumulating calc_stats succeeds on every ledger whose stake cells
are absent or numeric and whose profit cells are not present-but-non-
numeric. -/
theorem calcStatsGo_ok (strat : Option Strategy) (ts : List Trade)
    (h : ∀ t ∈ ts, (t.stake = .missing ∨ ∃ q, t.stake = .num q) ∧ t.profit ≠ .malformed) :
    ∀ acc : Stats, ∃ st, calcStatsGo strat ts acc = .ok st := by
  induction ts with
  | nil => intro acc; exact ⟨acc, rfl⟩
  | cons t ts ih =>
    intro acc
    have ht := h t (by simp)
    have htail := ih (fun x hx => h x (by simp [hx]))
    have hst : ∃ v, pyFloatD t.stake 0 = .ok v := by
      rcases ht.1 with hm | ⟨q, hq⟩
      · exact ⟨0, by simp [pyFloatD, hm]⟩
      · exact ⟨q, by simp [pyFloatD, hq]⟩
    rcases hst with ⟨v, hv⟩
    simp only [calcStatsGo]
    split
    · exact htail acc
    · rw [hv]
      cases hp : t.profit with
      | missing => exact htail _
      | empty => exact htail _
      | num p => exact htail _
      | malformed => exact absurd hp ht.2

/-- C9 (amended): a numeric cell that is ABSENT from a ledger row is
treated as zero (an absent profit cell marks the trade pending in the
statistics and contributes zero to the bankroll), an absent outcome is
an unresolved trade, and the computations succeed on such rows; but a
PRESENT non-numeric cell makes the computation raise instead of being
treated as zero (the counterexample shows the failure). -/
theorem ledger_missing_fields_as_zero :
    (∀ (strat : Option Strategy) (t : Trade) (ts : List Trade) (acc : Stats),
      t.stake = .missing →
      calcStatsGo strat (t :: ts) acc = calcStatsGo strat ({ t with stake := .num 0 } :: ts) acc) ∧
    (∀ (t : Trade) (ts : List Trade), t.profit = .missing →
      consensusRealized (t :: ts) = consensusRealized ({ t with profit := .num 0 } :: ts)) ∧
    (∀ (ts : List Trade) (strat : Option Strategy),
      (∀ t ∈ ts, (t.stake = .missing ∨ ∃ q, t.stake = .num q) ∧ t.profit ≠ .malformed) →
      ∃ st, calcStats ts strat = .ok st) ∧
    (∀ ts : List Trade, ParsesOk ts → ∃ b, consensusBankroll ts = .ok b) := by
  refine ⟨?_, ?_, ?_, ?_⟩
  · intro strat t ts acc h
    simp [calcStatsGo, h, pyFloatD]
  · intro t ts h
    simp [consensusRealized, h, pyFloatD]
  · intro ts strat h
    exact calcStatsGo_ok strat ts h _
  · intro ts h
    refine ⟨INITIAL_BANKROLL_USD + ((settledConsensus ts).map profitVal).sum, ?_⟩
    unfold consensusBankroll
    rw [realized_ok _ h]

theorem ledger_missing_fields_as_zero_witness :
    exMissStake.stake = .missing ∧
    calcStatsGo none [exMissStake] ⟨0, 0, 0, 0, 0⟩ =
      calcStatsGo none [{ exMissStake with stake := .num 0 }] ⟨0, 0, 0, 0, 0⟩ ∧
    (∃ st, calcStats [exMissStake] none = .ok st) ∧
    (∃ b, consensusBankroll [exMissStake] = .ok b) :=
  ⟨by decide,
   ledger_missing_fields_as_zero.1 none exMissStake [] ⟨0, 0, 0, 0, 0⟩ (by decide),
   ledger_missing_fields_as_zero.2.2.1 [exMissStake] none (fun t ht => by
     rcases List.mem_singleton.mp ht with rfl
     exact ⟨Or.inl rfl, by decide⟩),
   ledger_missing_fields_as_zero.2.2.2 [exMissStake] (by decide)⟩

/-- C9 (counterexample): a row with a present but non-numeric stake
cell makes calc_stats raise, and a settled risk-managed row with a
present but non-numeric profit cell makes the bankroll and period P&L
computations raise, contradicting that these computations never fail on
malformed rows. -/
theorem ledger_malformed_field_raises_cex :
    calcStats [exBadStake] none = .error () ∧
    consensusBankroll [exBadProfit] = .error () ∧
    consensusPeriodPnl [{ exBadProfit with time := some ⟨0, 0, 0, 0⟩ }] ⟨0, 0, 0, 0⟩ = .error () :=
  ⟨by decide, by decide, by decide⟩

/-! ### Helper lemmas on the decision index and trade counts -/

theorem mem_addKey (l : List (Strategy × String)) (k0 k : Strategy × String) :
    k ∈ addKey l k0 ↔ k = k0 ∨ k ∈ l := by
  unfold addKey
  split_ifs with h
  · constructor
    · exact fun hk => Or.inr hk
    · rintro (rfl | hk)
      · exact h
      · exact hk
  · simp [List.mem_cons]

theorem keyCount_append (l l2 : List Trade) (k : Strategy × String) :
    keyCount (l ++ l2) k = keyCount l k + keyCount l2 k := by
  unfold keyCount
  rw [List.filter_append, List.length_append]

theorem keyCount_single (t : Trade) (k : Strategy × String) :
    keyCount [t] k = if tradeKey t = k then 1 else 0 := by
  unfold keyCount
  by_cases h : tradeKey t = k <;> simp [h]

theorem keyCount_zero_of_uncovered (l : List Trade) (keys : List (Strategy × String))
    (hcov : ∀ t ∈ l, tradeKey t ∈ keys) (k : Strategy × String) (hk : k ∉ keys) :
    keyCount l k = 0 := by
  unfold keyCount
  rw [List.length_eq_zero, List.filter_eq_nil_iff]
  intro t ht
  simp only [decide_eq_true_eq]
  intro he
  exact hk (he ▸ hcov t ht)

theorem keyCount_map_of_preserve (f : Trade → Trade) (hf : ∀ t, tradeKey (f t) = tradeKey t)
    (l : List Trade) (k : Strategy × String) :
    keyCount (l.map f) k = keyCount l k := by
  induction l with
  | nil => rfl
  | cons t ts ih =>
    unfold keyCount at ih ⊢
    simp only [List.map_cons, List.filter_cons, hf t]
    split_ifs <;> simp [ih]

theorem reconcile_preserves_key (fee : ℚ) (set : String → Option Side) (t : Trade) :
    tradeKey (reconcileTrade fee set t) = tradeKey t := by
  unfold reconcileTrade
  split_ifs <;>
    first
      | rfl
      | (cases set t.buyTicker with
          | none => rfl
          | some r => cases pyFloatD t.contracts 0 <;> cases pyFloatD t.stake 0 <;> rfl)

/-! ### StageEffect and StepBound machinery -/

theorem stepBound_refl (s : BotState) : StepBound s s :=
  ⟨fun _ hk => hk, fun h => h, fun _ _ _ => rfl⟩

theorem stepBound_trans {s1 s2 s3 : BotState} (h1 : StepBound s1 s2) (h2 : StepBound s2 s3) :
    StepBound s1 s3 := by
  refine ⟨fun k hk => h2.1 k (h1.1 k hk), fun hi => h2.2.1 (h1.2.1 hi), fun hi k hk => ?_⟩
  rw [h2.2.2 (h1.2.1 hi) k (h1.1 k hk), h1.2.2 hi k hk]

theorem stepBound_of_same {s s2 : BotState} (ht : s2.trades = s.trades)
    (hk : s2.tradedKeys = s.tradedKeys) : StepBound s s2 := by
  refine ⟨fun k hkk => by rw [hk]; exact hkk, fun hi => ?_, fun _ k _ => by rw [ht]⟩
  obtain ⟨hcov, hcnt⟩ := hi
  exact ⟨fun t htm => by rw [hk]; exact hcov t (ht ▸ htm), fun k => by rw [ht]; exact hcnt k⟩

theorem stageEffect_stepBound {strat : Strategy} {tick : String} {s s2 : BotState}
    (h : StageEffect strat tick s s2) : StepBound s s2 := by
  obtain ⟨hcur, hpend, hrest⟩ := h
  rcases hrest with ⟨htr, hkeys⟩ | ⟨tr, hst, hbt, hoc, hnot, htr, hkeys⟩
  · rcases hkeys with hkeys | hkeys
    · exact stepBound_of_same htr hkeys
    · refine ⟨fun k hk => by rw [hkeys]; exact (mem_addKey _ _ _).mpr (Or.inr hk),
        fun hi => ?_, fun _ k _ => by rw [htr]⟩
      obtain ⟨hcov, hcnt⟩ := hi
      refine ⟨fun t htm => ?_, fun k => by rw [htr]; exact hcnt k⟩
      rw [hkeys]
      exact (mem_addKey _ _ _).mpr (Or.inr (hcov t (htr ▸ htm)))
  · have hktr : tradeKey tr = (strat, tick) := by
      unfold tradeKey
      rw [hst, hbt]
    refine ⟨fun k hk => by rw [hkeys]; exact (mem_addKey _ _ _).mpr (Or.inr hk),
      fun hi => ?_, fun hi k hk => ?_⟩
    · obtain ⟨hcov, hcnt⟩ := hi
      constructor
      · intro t htm
        rw [htr] at htm
        rw [hkeys]
        rcases List.mem_append.mp htm with hm | hm
        · exact (mem_addKey _ _ _).mpr (Or.inr (hcov t hm))
        · rcases List.mem_singleton.mp hm with rfl
          exact (mem_addKey _ _ _).mpr (Or.inl hktr)
      · intro k
        rw [htr, keyCount_append, keyCount_single, hktr]
        by_cases hk : k = (strat, tick)
        · rw [if_pos (by rw [hk]), keyCount_zero_of_uncovered s.trades s.tradedKeys hcov k (by rw [hk]; exact hnot)]
        · rw [if_neg (by intro he; exact hk he.symm)]
          simpa using hcnt k
    · rw [htr, keyCount_append, keyCount_single, hktr]
      have : k ≠ (strat, tick) := by
        intro he
        exact hnot (he ▸ hk)
      rw [if_neg (by intro he; exact this he.symm)]
      simp

/-! ### StageEffect of each strategy block -/

theorem hedgeTrade_fields (now : Timestamp) (pos : ArbPos) (tick : String)
    (yesAsk noAsk : ℚ) (tr : Trade) (h : hedgeTrade now pos tick yesAsk noAsk = some tr) :
    tr.strategy = .arbitrageHedge ∧ tr.buyTicker = tick ∧ tr.outcome = .unresolved := by
  simp only [hedgeTrade] at h
  split_ifs at h
  · injection h with h2
    subst h2
    exact ⟨rfl, rfl, rfl⟩

theorem stagePrevious_effect (s : BotState) (i : CycleIn) (tick : String) (ya na : ℚ) :
    StageEffect .previous tick s (stagePrevious s i tick ya na) := by
  unfold stagePrevious
  repeat' split
  all_goals first
    | exact ⟨rfl, rfl, Or.inl ⟨rfl, Or.inl rfl⟩⟩
    | exact ⟨rfl, rfl, Or.inl ⟨rfl, Or.inr rfl⟩⟩
    | exact ⟨rfl, rfl, Or.inr ⟨_, rfl, rfl, rfl, by assumption, rfl, rfl⟩⟩

theorem stageMomentumGen_effect (s : BotState) (i : CycleIn) (tick : String) (ya na w : ℚ)
    (strat : Strategy) (isM15 : Bool) :
    StageEffect strat tick s (stageMomentumGen s i tick ya na w strat isM15) := by
  unfold stageMomentumGen
  repeat' split
  all_goals first
    | exact ⟨rfl, rfl, Or.inl ⟨rfl, Or.inl rfl⟩⟩
    | exact ⟨rfl, rfl, Or.inl ⟨rfl, Or.inr rfl⟩⟩
    | exact ⟨rfl, rfl, Or.inr ⟨_, rfl, rfl, rfl, by assumption, rfl, rfl⟩⟩

set_option maxHeartbeats 2000000 in
theorem stageConsensus_effect (s : BotState) (i : CycleIn) (tick : String) (ya na : ℚ) :
    StageEffect .consensus tick s (stageConsensus s i tick ya na).1 := by
  rcases h : stageConsensus s i tick ya na with ⟨s2, b⟩
  unfold stageConsensus at h
  repeat' split at h
  all_goals injection h with h1 h2
  all_goals subst h1
  all_goals first
    | exact ⟨rfl, rfl, Or.inl ⟨rfl, Or.inl rfl⟩⟩
    | exact ⟨rfl, rfl, Or.inl ⟨rfl, Or.inr rfl⟩⟩
    | exact ⟨rfl, rfl, Or.inr ⟨_, rfl, rfl, rfl, by assumption, rfl, rfl⟩⟩

theorem stagePrevious2_effect (s : BotState) (i : CycleIn) (tick : String) (ya na : ℚ) :
    StageEffect .previous2 tick s (stagePrevious2 s i tick ya na) := by
  unfold stagePrevious2
  repeat' split
  all_goals first
    | exact ⟨rfl, rfl, Or.inl ⟨rfl, Or.inl rfl⟩⟩
    | exact ⟨rfl, rfl, Or.inl ⟨rfl, Or.inr rfl⟩⟩
    | exact ⟨rfl, rfl, Or.inr ⟨_, rfl, rfl, rfl, by assumption, rfl, rfl⟩⟩

set_option maxHeartbeats 2000000 in
theorem stageConsensus2_effect (s : BotState) (i : CycleIn) (tick : String) (ya na : ℚ) :
    StageEffect .consensus2 tick s (stageConsensus2 s i tick ya na).1 := by
  rcases h : stageConsensus2 s i tick ya na with ⟨s2, b⟩
  unfold stageConsensus2 at h
  repeat' split at h
  all_goals injection h with h1 h2
  all_goals subst h1
  all_goals first
    | exact ⟨rfl, rfl, Or.inl ⟨rfl, Or.inl rfl⟩⟩
    | exact ⟨rfl, rfl, Or.inl ⟨rfl, Or.inr rfl⟩⟩
    | exact ⟨rfl, rfl, Or.inr ⟨_, rfl, rfl, rfl, by assumption, rfl, rfl⟩⟩

theorem stageArbitrage_effect (s : BotState) (i : CycleIn) (tick : String) (ya na : ℚ) :
    StageEffect .arbitrage tick s (stageArbitrage s i tick ya na) := by
  unfold stageArbitrage
  repeat' split
  all_goals first
    | exact ⟨rfl, rfl, Or.inl ⟨rfl, Or.inl rfl⟩⟩
    | exact ⟨rfl, rfl, Or.inl ⟨rfl, Or.inr rfl⟩⟩
    | exact ⟨rfl, rfl, Or.inr ⟨_, rfl, rfl, rfl, by assumption, rfl, rfl⟩⟩

theorem stageHedge_effect (s : BotState) (i : CycleIn) (tick : String) (ya na : ℚ) :
    StageEffect .arbitrageHedge tick s (stageHedge s i tick ya na) := by
  unfold stageHedge
  repeat' split
  all_goals try exact ⟨rfl, rfl, Or.inl ⟨rfl, Or.inl rfl⟩⟩
  all_goals
    obtain ⟨h1, h2, h3⟩ := hedgeTrade_fields _ _ _ _ _ _ (by assumption)
  all_goals
    refine ⟨rfl, rfl, Or.inr ⟨_, h1, h2, h3, by assumption, rfl, ?_⟩⟩
  all_goals rw [← h1, ← h2]
  all_goals rfl

/-! ### StepBound of the full cycle -/

theorem stageRollover_stepBound (s : BotState) (tick : String) :
    StepBound s (stageRollover s tick) := by
  unfold stageRollover
  repeat' split
  all_goals exact stepBound_of_same rfl rfl

theorem stageReconcile_stepBound (s : BotState) (i : CycleIn) :
    StepBound s (stageReconcile s i) := by
  unfold stageReconcile
  refine ⟨fun k hk => hk, fun hi => ?_, fun _ k _ => ?_⟩
  · obtain ⟨hcov, hcnt⟩ := hi
    constructor
    · intro t htm
      simp only [List.mem_map] at htm
      obtain ⟨u, hu, rfl⟩ := htm
      rw [reconcile_preserves_key]
      exact hcov u hu
    · intro k
      rw [keyCount_map_of_preserve _ (fun t => reconcile_preserves_key _ _ t) _ k]
      exact hcnt k
  · exact keyCount_map_of_preserve _ (fun t => reconcile_preserves_key _ _ t) _ k

theorem stageClearPending_stepBound (s : BotState) (tick : String) :
    StepBound s (stageClearPending s tick) := by
  unfold stageClearPending
  repeat' split
  all_goals exact stepBound_of_same rfl rfl

theorem cycleTail2_stepBound (s : BotState) (i : CycleIn) (tick : String) (ya na : ℚ) :
    StepBound s (cycleTail2 s i tick ya na) := by
  unfold cycleTail2
  exact stepBound_trans (stageEffect_stepBound (stageArbitrage_effect s i tick ya na))
    (stepBound_trans (stageEffect_stepBound (stageHedge_effect _ i tick ya na))
      (stageClearPending_stepBound _ tick))

theorem cycleTail1_stepBound (s : BotState) (i : CycleIn) (tick : String) (ya na : ℚ) :
    StepBound s (cycleTail1 s i tick ya na) := by
  unfold cycleTail1
  show StepBound s (match stageConsensus2 (stagePrevious2 s i tick ya na) i tick ya na with
    | (s, false) => s
    | (s, true) => cycleTail2 s i tick ya na)
  rcases h : stageConsensus2 (stagePrevious2 s i tick ya na) i tick ya na with ⟨s2, b⟩
  have h1 : StepBound s (stagePrevious2 s i tick ya na) :=
    stageEffect_stepBound (stagePrevious2_effect s i tick ya na)
  have h2 : StepBound (stagePrevious2 s i tick ya na) s2 := by
    have h3 := stageEffect_stepBound (stageConsensus2_effect (stagePrevious2 s i tick ya na) i tick ya na)
    rw [h] at h3
    exact h3
  cases b
  · exact stepBound_trans h1 h2
  · exact stepBound_trans h1 (stepBound_trans h2 (cycleTail2_stepBound s2 i tick ya na))

theorem consensusMatch_stepBound (s0 : BotState) (i : CycleIn) (tick : String) (ya na : ℚ) :
    StepBound s0 (match stageConsensus s0 i tick ya na with
      | (s, false) => s
      | (s, true) => cycleTail1 s i tick ya na) := by
  rcases h : stageConsensus s0 i tick ya na with ⟨s2, b⟩
  have h2 : StepBound s0 s2 := by
    have h3 := stageEffect_stepBound (stageConsensus_effect s0 i tick ya na)
    rw [h] at h3
    exact h3
  cases b
  · exact h2
  · exact stepBound_trans h2 (cycleTail1_stepBound s2 i tick ya na)

theorem cycleCore_stepBound (s : BotState) (i : CycleIn) (tick : String) (ya na : ℚ) :
    StepBound s (cycleCore s i tick ya na) := by
  unfold cycleCore
  refine stepBound_trans (stepBound_of_same rfl rfl :
    StepBound s { s with signals := ensureSig s.signals tick }) ?_
  refine stepBound_trans (stageRollover_stepBound _ tick) ?_
  refine stepBound_trans (stageReconcile_stepBound _ i) ?_
  refine stepBound_trans (stageEffect_stepBound (stagePrevious_effect _ i tick ya na)) ?_
  refine stepBound_trans (stageEffect_stepBound
    (stageMomentumGen_effect _ i tick ya na MOMENTUM_WINDOW_SECONDS .momentum false)) ?_
  refine stepBound_trans (stageEffect_stepBound
    (stageMomentumGen_effect _ i tick ya na MOMENTUM_15_WINDOW_SECONDS .momentum15 true)) ?_
  exact consensusMatch_stepBound _ i tick ya na

theorem btcStage_stepBound (s : BotState) (i : CycleIn) : StepBound s (btcStage s i) := by
  unfold btcStage
  rcases hb : i.btcPrice with _ | p
  · exact stepBound_refl s
  · exact stepBound_of_same rfl rfl

theorem cycleStep_stepBound (s : BotState) (i : CycleIn) : StepBound s (cycleStep s i) := by
  unfold cycleStep
  rcases hm : i.market with _ | mk
  · exact btcStage_stepBound s i
  · exact stepBound_trans (btcStage_stepBound s i) (cycleCore_stepBound _ i _ _ _)

theorem initial_inv : StateInv initialState := by
  constructor
  · intro t ht
    simp [initialState] at ht
  · intro k
    simp [initialState, keyCount]

theorem reachable_inv (s : BotState) (h : Reachable s) : StateInv s := by
  induction h with
  | init => exact initial_inv
  | next s0 i _ ih => exact (cycleStep_stepBound s0 i).2.1 ih

/-- C6: in every reachable state there is at most one Trade per
(strategy, market ticker) pair, covering the directional strategies and
the two arbitrage legs alike, and re-running a cycle against any input
appends no second Trade for an already-decided pair. -/
theorem trade_uniqueness_and_idempotency (s : BotState) (hs : Reachable s) :
    (∀ k : Strategy × String, keyCount s.trades k ≤ 1) ∧
    (∀ (i : CycleIn) (k : Strategy × String), k ∈ s.tradedKeys →
      keyCount (cycleStep s i).trades k = keyCount s.trades k) := by
  have hinv := reachable_inv s hs
  exact ⟨hinv.2, fun i k hk => (cycleStep_stepBound s i).2.2 hinv k hk⟩

theorem trade_uniqueness_and_idempotency_witness :
    (Strategy.arbitrage, "M") ∈ (cycleStep initialState exInput).tradedKeys ∧
    keyCount (cycleStep initialState exInput).trades (Strategy.arbitrage, "M") ≤ 1 ∧
    keyCount (cycleStep (cycleStep initialState exInput) exInput).trades (Strategy.arbitrage, "M") =
      keyCount (cycleStep initialState exInput).trades (Strategy.arbitrage, "M") :=
  ⟨by decide,
   (trade_uniqueness_and_idempotency (cycleStep initialState exInput)
     (Reachable.next _ _ Reachable.init)).1 (Strategy.arbitrage, "M"),
   (trade_uniqueness_and_idempotency (cycleStep initialState exInput)
     (Reachable.next _ _ Reachable.init)).2 exInput (Strategy.arbitrage, "M") (by decide)⟩

/-! ### Helper lemmas for the CONSENSUS_2 starvation scenario -/

theorem reconcileTrade_no_settle (fee : ℚ) (set : String → Option Side)
    (hset : ∀ x, set x = none) (t : Trade) : reconcileTrade fee set t = t := by
  unfold reconcileTrade
  split_ifs <;> try rfl
  all_goals rw [hset t.buyTicker]

theorem stageReconcile_no_settle (s : BotState) (i : CycleIn)
    (hset : ∀ x, i.settle x = none) : stageReconcile s i = s := by
  unfold stageReconcile
  have hmap : s.trades.map (reconcileTrade CONSENSUS_FEE_PCT i.settle) = s.trades := by
    rw [List.map_congr_left (fun t _ => reconcileTrade_no_settle _ _ hset t)]
    simp
  rw [hmap]

theorem btcStage_fields (s : BotState) (i : CycleIn) :
    (btcStage s i).currentTicker = s.currentTicker ∧
    (btcStage s i).pendingPrevious = s.pendingPrevious ∧
    (btcStage s i).trades = s.trades ∧
    (btcStage s i).tradedKeys = s.tradedKeys ∧
    (btcStage s i).signals = s.signals := by
  unfold btcStage
  cases i.btcPrice <;> exact ⟨rfl, rfl, rfl, rfl, rfl⟩

theorem stagePrevious_skip (s : BotState) (i : CycleIn) (tick : String) (ya na : ℚ)
    (hpend : s.pendingPrevious = none) : stagePrevious s i tick ya na = s := by
  unfold stagePrevious
  rw [hpend]

theorem stageMomentumGen_skip (s : BotState) (i : CycleIn) (tick : String) (ya na w : ℚ)
    (strat : Strategy) (isM15 : Bool) (hpend : s.pendingPrevious = none) :
    stageMomentumGen s i tick ya na w strat isM15 = s := by
  unfold stageMomentumGen
  rw [hpend]

theorem stageRollover_same (s : BotState) (tick : String)
    (hcur : s.currentTicker = some tick) : stageRollover s tick = s := by
  unfold stageRollover
  rw [hcur]
  simp

theorem stageClearPending_skip (s : BotState) (tick : String)
    (hpend : s.pendingPrevious = none) : stageClearPending s tick = s := by
  unfold stageClearPending
  rw [hpend]

theorem bankroll_ok_of_parses (ts : List Trade) (h : ParsesOk ts) :
    consensusBankroll ts = .ok (INITIAL_BANKROLL_USD + ((settledConsensus ts).map profitVal).sum) := by
  unfold consensusBankroll
  rw [realized_ok _ h]

theorem periodAccum_ok (now : Timestamp) (l : List Trade) (h : ∀ t ∈ l, profitBenign t) :
    ∃ dw, periodAccum now l = .ok dw := by
  induction l with
  | nil => exact ⟨(0, 0), rfl⟩
  | cons t ts ih =>
    obtain ⟨dw, hdw⟩ := ih (fun x hx => h x (by simp [hx]))
    cases htm : t.time with
    | none =>
      refine ⟨dw, ?_⟩
      simp only [periodAccum, htm]
      exact hdw
    | some tm =>
      refine ⟨((if tm.day = now.day then profitVal t else 0) + dw.1,
               (if tm.wyear = now.wyear ∧ tm.wweek = now.wweek then profitVal t else 0) + dw.2), ?_⟩
      simp only [periodAccum, htm, pyFloatD_benign t (h t (by simp)), hdw]

theorem periodPnl_ok (ts : List Trade) (now : Timestamp) (h : ParsesOk ts) :
    ∃ dw, consensusPeriodPnl ts now = .ok dw :=
  periodAccum_ok now (settledConsensus ts) h

theorem profitList_ok (l : List Trade) (h : ∀ t ∈ l, profitBenign t) :
    ∃ ps, profitList l = .ok ps := by
  induction l with
  | nil => exact ⟨[], rfl⟩
  | cons t ts ih =>
    obtain ⟨ps, hps⟩ := ih (fun x hx => h x (by simp [hx]))
    refine ⟨profitVal t :: ps, ?_⟩
    simp only [profitList, pyFloatD_benign t (h t (by simp)), hps]

theorem rolling_ok_of_parses (ts : List Trade) (h : ParsesOk ts) :
    ∃ m, rollingConsensusMetrics ts = .ok m := by
  by_cases hs : settledConsensus ts = []
  · exact ⟨⟨0, 0, 1⟩, by simp [rollingConsensusMetrics, hs]⟩
  · simp only [rollingConsensusMetrics, if_neg hs]
    have hsub : ∀ t ∈ takeLast CONSENSUS_ROLLING_WINDOW (settledConsensus ts), profitBenign t := by
      intro t ht
      unfold takeLast at ht
      exact h t (List.drop_subset _ _ ht)
    obtain ⟨ps, hps⟩ := profitList_ok _ hsub
    rw [hps]
    exact ⟨_, rfl⟩

theorem settled_append_unresolved (l : List Trade) (tr : Trade) (h : tr.outcome = .unresolved) :
    settledConsensus (l ++ [tr]) = settledConsensus l := by
  unfold settledConsensus
  rw [List.filter_append]
  simp [h]

theorem stageArbitrage_signals (s : BotState) (i : CycleIn) (tick : String) (ya na : ℚ) :
    (stageArbitrage s i tick ya na).signals = s.signals := by
  unfold stageArbitrage
  repeat' split
  all_goals rfl

theorem stageHedge_signals (s : BotState) (i : CycleIn) (tick : String) (ya na : ℚ) :
    (stageHedge s i tick ya na).signals = s.signals := by
  unfold stageHedge
  repeat' split
  all_goals rfl

set_option maxHeartbeats 2000000 in
theorem stageConsensus_signals (s : BotState) (i : CycleIn) (tick : String) (ya na : ℚ) :
    (stageConsensus s i tick ya na).1.signals = s.signals := by
  rcases h : stageConsensus s i tick ya na with ⟨s2, b⟩
  unfold stageConsensus at h
  repeat' split at h
  all_goals injection h with h1 h2
  all_goals subst h1
  all_goals rfl

set_option maxHeartbeats 2000000 in
theorem stageConsensus2_signals (s : BotState) (i : CycleIn) (tick : String) (ya na : ℚ) :
    (stageConsensus2 s i tick ya na).1.signals = s.signals := by
  rcases h : stageConsensus2 s i tick ya na with ⟨s2, b⟩
  unfold stageConsensus2 at h
  repeat' split at h
  all_goals injection h with h1 h2
  all_goals subst h1
  all_goals rfl

/-- A strategy block whose StageEffect names a strategy other than
CONSENSUS_2 and which leaves the signal cache alone preserves the
starvation invariant. -/
theorem qinv_stage {T : String} {sd : Side} {c0 : ℕ} {strat : Strategy} {tick : String}
    {s s2 : BotState} (heff : StageEffect strat tick s s2)
    (hsig : s2.signals = s.signals) (hstrat : strat ≠ .consensus2)
    (hq : QInv T sd c0 s) : QInv T sd c0 s2 := by
  obtain ⟨hcur, hpend, hsigs, hpar, hk2, hcnt⟩ := hq
  obtain ⟨hc2, hp2, hrest⟩ := heff
  refine ⟨by rw [hc2]; exact hcur, by rw [hp2]; exact hpend, by rw [hsig]; exact hsigs, ?_, ?_, ?_⟩
  · rcases hrest with ⟨htr, _⟩ | ⟨tr, _, _, hoc, _, htr, _⟩
    · rw [htr]
      exact hpar
    · intro t ht
      rw [htr, settled_append_unresolved _ _ hoc] at ht
      exact hpar t ht
  · rcases hrest with ⟨_, hk | hk⟩ | ⟨tr, _, _, _, _, _, hk⟩ <;> rw [hk]
    · exact hk2
    all_goals
      intro hmem
      rcases (mem_addKey _ _ _).mp hmem with heq | hmem2
      · exact hstrat (congrArg Prod.fst heq).symm
      · exact hk2 hmem2
  · rcases hrest with ⟨htr, _⟩ | ⟨tr, hst, hbt, _, _, htr, _⟩
    · rw [htr]
      exact hcnt
    · rw [htr, keyCount_append, keyCount_single]
      rw [if_neg (by
        intro he
        unfold tradeKey at he
        rw [hst, hbt] at he
        exact hstrat (congrArg Prod.fst he.symm).symm)]
      simpa using hcnt

theorem stagePrevious2_skip_price (s : BotState) (i : CycleIn) (tick : String) (ya na : ℚ)
    (g : Signals) (sd : Side)
    (hg : sigLookup s.signals tick = some g) (hgp : g.previousSig = some sd)
    (hprice : DEAL_MAX_PRICE < askFor sd ya na) :
    stagePrevious2 s i tick ya na = s := by
  unfold stagePrevious2
  by_cases hk : (Strategy.previous2, tick) ∈ s.tradedKeys
  · rw [if_pos hk]
  · rw [if_neg hk]
    simp only [hg, hgp]
    rw [if_neg (by
      intro hcon
      exact absurd hcon.2 (not_le.mpr hprice))]

theorem stageConsensus2_skip_price (s : BotState) (i : CycleIn) (tick : String) (ya na : ℚ)
    (g : Signals) (sd : Side)
    (hg : sigLookup s.signals tick = some g) (hgp : g.previousSig = some sd)
    (hgm : g.momentumSig = some sd)
    (hk2 : (Strategy.consensus2, tick) ∉ s.tradedKeys)
    (hprice : DEAL_MAX_PRICE < askFor sd ya na) :
    stageConsensus2 s i tick ya na = (s, true) := by
  unfold stageConsensus2
  rw [if_neg hk2]
  simp only [hg, hgp, hgm, if_true]
  rw [if_neg (by
    intro hcon
    exact absurd hcon.2 (not_le.mpr hprice))]

set_option maxHeartbeats 2000000 in
theorem consensus_stage_decides (s : BotState) (i : CycleIn) (tick : String) (ya na : ℚ)
    (g : Signals) (sd : Side)
    (hg : sigLookup s.signals tick = some g) (hgp : g.previousSig = some sd)
    (hgm : g.momentumSig = some sd)
    (hpar : ParsesOk s.trades)
    (hkc : (Strategy.consensus, tick) ∉ s.tradedKeys) :
    (Strategy.consensus, tick) ∈ (stageConsensus s i tick ya na).1.tradedKeys := by
  have hbk := bankroll_ok_of_parses s.trades hpar
  obtain ⟨dw, hdw⟩ := periodPnl_ok s.trades i.now hpar
  obtain ⟨m, hm⟩ := rolling_ok_of_parses s.trades hpar
  unfold stageConsensus
  rw [if_neg hkc]
  simp only [hg, hgp, hgm, if_true, hbk, hdw, hm]
  split_ifs
  all_goals exact (mem_addKey _ _ _).mpr (Or.inl rfl)

theorem cycleCore_preserves_agree (T : String) (sd : Side) (c0 : ℕ) (s : BotState)
    (i : CycleIn) (ya na : ℚ)
    (hset : ∀ x, i.settle x = none)
    (hprice : DEAL_MAX_PRICE < askFor sd ya na)
    (hq : QInv T sd c0 s) :
    QInv T sd c0 (cycleCore s i T ya na) := by
  obtain ⟨hcur, hpend, ⟨g, hg, hgp, hgm⟩, hpar, hk2, hcnt⟩ := hq
  have hqq : QInv T sd c0 s := ⟨hcur, hpend, ⟨g, hg, hgp, hgm⟩, hpar, hk2, hcnt⟩
  have h1 : { s with signals := ensureSig s.signals T } = s := by
    unfold ensureSig
    rw [hg]
  simp only [cycleCore]
  rw [h1, stageRollover_same s T hcur, stageReconcile_no_settle s i hset,
      stagePrevious_skip s i T ya na hpend,
      stageMomentumGen_skip s i T ya na MOMENTUM_WINDOW_SECONDS .momentum false hpend,
      stageMomentumGen_skip s i T ya na MOMENTUM_15_WINDOW_SECONDS .momentum15 true hpend]
  rcases hc : stageConsensus s i T ya na with ⟨s2, b⟩
  have heff := stageConsensus_effect s i T ya na
  have hsg := stageConsensus_signals s i T ya na
  rw [hc] at heff hsg
  have hq2 : QInv T sd c0 s2 := qinv_stage heff hsg (by decide) hqq
  cases b
  · exact hq2
  · obtain ⟨hcur2, hpend2, ⟨g2, hg2, hgp2, hgm2⟩, hpar2, hk2b, hcnt2⟩ := hq2
    have hq2q : QInv T sd c0 s2 := ⟨hcur2, hpend2, ⟨g2, hg2, hgp2, hgm2⟩, hpar2, hk2b, hcnt2⟩
    simp only [cycleTail1]
    rw [stagePrevious2_skip_price s2 i T ya na g2 sd hg2 hgp2 hprice,
        stageConsensus2_skip_price s2 i T ya na g2 sd hg2 hgp2 hgm2 hk2b hprice]
    simp only [cycleTail2]
    have hq3 : QInv T sd c0 (stageArbitrage s2 i T ya na) :=
      qinv_stage (stageArbitrage_effect s2 i T ya na) (stageArbitrage_signals s2 i T ya na)
        (by decide) hq2q
    have hq4 : QInv T sd c0 (stageHedge (stageArbitrage s2 i T ya na) i T ya na) :=
      qinv_stage (stageHedge_effect _ i T ya na) (stageHedge_signals _ i T ya na)
        (by decide) hq3
    rw [stageClearPending_skip _ T hq4.2.1]
    exact hq4

theorem cycleStep_preserves_agree (T : String) (sd : Side) (c0 : ℕ) (s : BotState)
    (i : CycleIn) (ya na : ℚ)
    (hmkt : i.market = some ⟨T, ya, na⟩)
    (hset : ∀ x, i.settle x = none)
    (hprice : DEAL_MAX_PRICE < askFor sd (ya / 100) (na / 100))
    (hq : QInv T sd c0 s) :
    QInv T sd c0 (cycleStep s i) := by
  have hb := btcStage_fields s i
  have hqb : QInv T sd c0 (btcStage s i) := by
    obtain ⟨hcur, hpend, hsigs, hpar, hk2, hcnt⟩ := hq
    refine ⟨by rw [hb.1]; exact hcur, by rw [hb.2.1]; exact hpend,
      by rw [hb.2.2.2.2]; exact hsigs, ?_, by rw [hb.2.2.2.1]; exact hk2,
      by rw [hb.2.2.1]; exact hcnt⟩
    unfold ParsesOk
    rw [hb.2.2.1]
    exact hpar
  unfold cycleStep
  rw [hmkt]
  exact cycleCore_preserves_agree T sd c0 (btcStage s i) i _ _ hset hprice hqb

theorem cycleStep_decides_consensus (T : String) (sd : Side) (s : BotState) (i : CycleIn)
    (ya na : ℚ) (g : Signals)
    (hmkt : i.market = some ⟨T, ya, na⟩)
    (hset : ∀ x, i.settle x = none)
    (hcur : s.currentTicker = some T)
    (hpend : s.pendingPrevious = none)
    (hg : sigLookup s.signals T = some g) (hgp : g.previousSig = some sd)
    (hgm : g.momentumSig = some sd)
    (hpar : ParsesOk s.trades)
    (hkc : (Strategy.consensus, T) ∉ s.tradedKeys) :
    (Strategy.consensus, T) ∈ (cycleStep s i).tradedKeys := by
  have hb := btcStage_fields s i
  have hg2 : sigLookup (btcStage s i).signals T = some g := by
    rw [hb.2.2.2.2]
    exact hg
  have h1 : { btcStage s i with signals := ensureSig (btcStage s i).signals T } = btcStage s i := by
    unfold ensureSig
    rw [hg2]
  unfold cycleStep
  rw [hmkt]
  show (Strategy.consensus, T) ∈ (cycleCore (btcStage s i) i T (ya / 100) (na / 100)).tradedKeys
  simp only [cycleCore]
  rw [h1, stageRollover_same _ T (by rw [hb.1]; exact hcur),
      stageReconcile_no_settle _ i hset,
      stagePrevious_skip _ i T _ _ (by rw [hb.2.1]; exact hpend),
      stageMomentumGen_skip _ i T _ _ MOMENTUM_WINDOW_SECONDS .momentum false (by rw [hb.2.1]; exact hpend),
      stageMomentumGen_skip _ i T _ _ MOMENTUM_15_WINDOW_SECONDS .momentum15 true (by rw [hb.2.1]; exact hpend)]
  rcases hc : stageConsensus (btcStage s i) i T (ya / 100) (na / 100) with ⟨s2, b⟩
  have hdec := consensus_stage_decides (btcStage s i) i T (ya / 100) (na / 100) g sd hg2 hgp hgm
    (by unfold ParsesOk; rw [hb.2.2.1]; exact hpar)
    (by rw [hb.2.2.2.1]; exact hkc)
  rw [hc] at hdec
  cases b
  · exact hdec
  · exact (cycleTail1_stepBound s2 i T _ _).1 _ hdec

theorem qinv_iterate (T : String) (sd : Side) (c0 : ℕ) (i : CycleIn) (ya na : ℚ)
    (hmkt : i.market = some ⟨T, ya, na⟩)
    (hset : ∀ x, i.settle x = none)
    (hprice : DEAL_MAX_PRICE < askFor sd (ya / 100) (na / 100)) :
    ∀ (n : ℕ) (s : BotState), QInv T sd c0 s → QInv T sd c0 (iterStep n s i) := by
  intro n
  induction n with
  | zero => intro s hq; exact hq
  | succ k ih =>
    intro s hq
    exact ih (cycleStep s i) (cycleStep_preserves_agree T sd c0 s i ya na hmkt hset hprice hq)

/-- C10: whenever the cached PREVIOUS and MOMENTUM signals for the
current market agree but the agreed side asks above the deal threshold,
the CONSENSUS_2 pair is never marked decided (it stays out of the
decision index and gains no trade) across any number of further cycles
against the same input with no new settlement, while CONSENSUS under
the same signals reaches the risk manager and is terminally decided in
that very cycle. -/
theorem consensus2_starves_while_consensus_decides
    (T : String) (sd : Side) (s : BotState) (i : CycleIn) (ya na : ℚ) (g : Signals)
    (hmkt : i.market = some ⟨T, ya, na⟩)
    (hset : ∀ x, i.settle x = none)
    (hprice : DEAL_MAX_PRICE < askFor sd (ya / 100) (na / 100))
    (hcur : s.currentTicker = some T)
    (hpend : s.pendingPrevious = none)
    (hg : sigLookup s.signals T = some g)
    (hgp : g.previousSig = some sd)
    (hgm : g.momentumSig = some sd)
    (hpar : ParsesOk s.trades)
    (hk2 : (Strategy.consensus2, T) ∉ s.tradedKeys) :
    (∀ n : ℕ, (Strategy.consensus2, T) ∉ (iterStep n s i).tradedKeys ∧
      keyCount (iterStep n s i).trades (Strategy.consensus2, T) =
        keyCount s.trades (Strategy.consensus2, T)) ∧
    ((Strategy.consensus, T) ∉ s.tradedKeys →
      (Strategy.consensus, T) ∈ (cycleStep s i).tradedKeys) := by
  constructor
  · intro n
    have hq0 : QInv T sd (keyCount s.trades (Strategy.consensus2, T)) s :=
      ⟨hcur, hpend, ⟨g, hg, hgp, hgm⟩, hpar, hk2, rfl⟩
    have hqn := qinv_iterate T sd _ i ya na hmkt hset hprice n s hq0
    exact ⟨hqn.2.2.2.2.1, hqn.2.2.2.2.2⟩
  · intro hkc
    exact cycleStep_decides_consensus T sd s i ya na g hmkt hset hcur hpend hg hgp hgm hpar hkc

theorem consensus2_starves_while_consensus_decides_witness :
    ((Strategy.consensus2, "M") ∉ (iterStep 3 exAgreeState exAgreeInput).tradedKeys ∧
      keyCount (iterStep 3 exAgreeState exAgreeInput).trades (Strategy.consensus2, "M") =
        keyCount exAgreeState.trades (Strategy.consensus2, "M")) ∧
    (Strategy.consensus, "M") ∈ (cycleStep exAgreeState exAgreeInput).tradedKeys :=
  ⟨(consensus2_starves_while_consensus_decides "M" .yes exAgreeState exAgreeInput 50 60
      ⟨some .yes, some .yes, none⟩ rfl (fun _ => rfl) (by decide) rfl rfl (by decide) rfl rfl
      (by decide) (by decide)).1 3,
   (consensus2_starves_while_consensus_decides "M" .yes exAgreeState exAgreeInput 50 60
      ⟨some .yes, some .yes, none⟩ rfl (fun _ => rfl) (by decide) rfl rfl (by decide) rfl rfl
      (by decide) (by decide)).2 (by decide)⟩
